import Mathlib

/-!
Verification development for the golog file-writer pipeline (writer.go).

The Go code is shallowly embedded: the filesystem is an association list
from paths to byte lists, `bufio.Writer` is a record holding the pending
bytes, its capacity and its sticky error flag, and every fallible
filesystem syscall (write, close, rename, open, remove) draws its outcome
from an explicit `World` script (an empty script means every operation
succeeds).  Mutex-serialized methods are modelled as pure state
transitions; a Go nil-pointer dereference is modelled by an explicit
`panicked` outcome.
-/

namespace Golog

/-- Byte values; their numeric range is irrelevant to the claims. -/
abbrev Byte := Nat

/-- Outcome of one fallible filesystem operation, drawn from the script:
`ok` succeeds, `fail` fails accepting nothing, `part n` is a short write
that accepts `n` bytes (an error for `os.File` whenever `n` is short). -/
inductive IoRes where
  | ok
  | fail
  | part (n : Nat)
deriving DecidableEq, Repr

/-- Fault-injection script consumed left to right; exhausted means `ok`. -/
abbrev World := List IoRes

/-- Pop the next scripted outcome (an empty script yields `ok`). -/
def wNext : World → IoRes × World
  | [] => (IoRes.ok, [])
  | r :: t => (r, t)

/-- The filesystem: an association list from paths to file contents. -/
abbrev Fs (α : Type) := List (α × List Byte)

/-- Look up the content of the file at path `p`. -/
def fsGet [DecidableEq α] : Fs α → α → Option (List Byte)
  | [], _ => none
  | (q, d) :: t, p => if q = p then some d else fsGet t p

/-- Set (create or overwrite) the file at path `p` to content `d`. -/
def fsSet [DecidableEq α] : Fs α → α → List Byte → Fs α
  | [], p, d => [(p, d)]
  | (q, e) :: t, p, d => if q = p then (p, d) :: t else (q, e) :: fsSet t p d

/-- Delete the file at path `p` (`os.Remove`). -/
def fsDel [DecidableEq α] : Fs α → α → Fs α
  | [], _ => []
  | (q, e) :: t, p => if q = p then fsDel t p else (q, e) :: fsDel t p

/-- `os.Rename src dst`: fails (returning the filesystem unchanged and
`false`) when the source is missing, otherwise moves the content over
`dst`, overwriting it. -/
def fsRename [DecidableEq α] (fs : Fs α) (src dst : α) : Fs α × Bool :=
  match fsGet fs src with
  | none => (fs, false)
  | some d => (fsSet (fsDel fs src) dst d, true)

/-- Append bytes to the file open at path `p` (the handle was opened with
`O_APPEND`, so the bytes land at the end of the current content). -/
def fsAppend [DecidableEq α] (fs : Fs α) (p : α) (d : List Byte) : Fs α :=
  match fsGet fs p with
  | none => fsSet fs p d
  | some e => fsSet fs p (e ++ d)

/-- `os.OpenFile` with `O_WRONLY|O_CREATE|O_APPEND`: creates the file
empty when absent, keeps its content when present. -/
def fsOpenApp [DecidableEq α] (fs : Fs α) (p : α) : Fs α :=
  match fsGet fs p with
  | none => fsSet fs p []
  | some _ => fs

/-- Filesystem plus the pending fault-injection script. -/
structure FIo (α : Type) where
  fs : Fs α
  world : World
deriving DecidableEq

/-- One underlying `os.File.Write` on the handle open at path `h`:
returns the number of bytes the OS accepted, whether the call errored
(it errors exactly when the write is short), and the new state. -/
def fileWrite [DecidableEq α] (io : FIo α) (h : α) (p : List Byte) :
    Nat × Bool × FIo α :=
  match wNext io.world with
  | (IoRes.ok, w') => (p.length, false, ⟨fsAppend io.fs h p, w'⟩)
  | (IoRes.fail, w') => (0, true, ⟨io.fs, w'⟩)
  | (IoRes.part n, w') =>
      let k := min n p.length
      (k, decide (k < p.length), ⟨fsAppend io.fs h (p.take k), w'⟩)

/-- The state of a `bufio.Writer`: the buffered (pending) bytes, the
buffer capacity, and the sticky error flag (`b.err != nil`). -/
structure BufState where
  pending : List Byte
  cap : Nat
  errFlag : Bool
deriving DecidableEq

/-- `bufio.Writer.Flush` on the buffer bound to the handle at path `h`.
Returns the new buffer, the new filesystem state and whether an error
was reported.  A sticky error is returned without a syscall; an empty
buffer flushes without a syscall; a short underlying write keeps the
unwritten tail buffered and sets the sticky error flag. -/
def bufFlush [DecidableEq α] (b : BufState) (io : FIo α) (h : α) :
    BufState × FIo α × Bool :=
  if b.errFlag then (b, io, true)
  else if b.pending.isEmpty then (b, io, false)
  else
    let r := fileWrite io h b.pending
    if r.2.1 then
      (⟨b.pending.drop r.1, b.cap, true⟩, r.2.2, true)
    else
      (⟨[], b.cap, false⟩, r.2.2, false)

/-- `bufio.Writer.Write` on the buffer bound to the handle at path `h`,
returning the accepted byte count, the error flag, the new buffer state
and the new filesystem state.  This is the closed form of Go's loop for
an `os.File` underlying writer (whose short writes always error): a
sticky error accepts nothing; data fitting the free space is buffered; a
large write on an empty buffer goes directly to the file; otherwise the
free space is filled, the buffer flushed, and the remainder is buffered
(when it fits the capacity) or written directly. -/
def bwWrite [DecidableEq α] (b : BufState) (io : FIo α) (h : α) (p : List Byte) :
    Nat × Bool × BufState × FIo α :=
  if b.errFlag then (0, true, b, io)
  else if p.length ≤ b.cap - b.pending.length then
    (p.length, false, ⟨b.pending ++ p, b.cap, false⟩, io)
  else if b.pending.length = 0 then
    let r := fileWrite io h p
    (r.1, r.2.1, ⟨[], b.cap, r.2.1⟩, r.2.2)
  else
    let k := b.cap - b.pending.length
    let f := bufFlush ⟨b.pending ++ p.take k, b.cap, false⟩ io h
    if f.2.2 then (k, true, f.1, f.2.1)
    else
      let p' := p.drop k
      if p'.length ≤ b.cap then
        (k + p'.length, false, ⟨p', b.cap, false⟩, f.2.1)
      else
        let r := fileWrite f.2.1 h p'
        (k + r.1, r.2.1, ⟨[], b.cap, r.2.1⟩, r.2.2)

example :
    bwWrite ⟨[1], 4, false⟩ ⟨[(0, [9])], []⟩ (0 : Nat) [2, 3] =
      (2, false, ⟨[1, 2, 3], 4, false⟩, ⟨[(0, [9])], []⟩) := by decide

example :
    bwWrite ⟨[1, 2], 3, false⟩ ⟨[(0, [])], []⟩ (0 : Nat) [3, 4] =
      (2, false, ⟨[4], 3, false⟩, ⟨[(0, [1, 2, 3])], []⟩) := by decide

example :
    bwWrite ⟨[], 2, false⟩ ⟨[(0, [])], []⟩ (0 : Nat) [5, 6, 7] =
      (3, false, ⟨[], 2, false⟩, ⟨[(0, [5, 6, 7])], []⟩) := by decide

/-- Errors the embedded methods can return: `closedE` is `os.ErrClosed`
(the `ClosedError` of the spec), `ioE` any filesystem-level error. -/
inductive WErr where
  | closedE
  | ioE
deriving DecidableEq, Repr

/-- The `BufferedFileWriter` struct of writer.go.  `writer` is the open
file handle (carried as the path it is open at, `none` when the Go field
is nil), `buffer` the `bufio.Writer` (`none` when nil).  The mutex is
modelled by serializing all method calls; `updateChan` is the number of
wake signals queued in the capacity-1 channel, `updated` the dirty flag.
The path type is a parameter because the size rotator names its files by
an index algebra while the timed rotator uses strings. -/
structure BufferedFileWriter (α : Type) where
  writer : Option α
  buffer : Option BufState
  updated : Bool
  updateChan : Nat
  io : FIo α
deriving DecidableEq

/-- Result of a write-like method: a returned `(n, err)` pair with the
post state, or a Go nil-pointer dereference. -/
inductive WOut (σ : Type) where
  | ret (n : Nat) (err : Option WErr) (st : σ)
  | panicked
deriving DecidableEq

/-- The post state of a `WOut`, with a default for the panic case. -/
def WOut.stOr (o : WOut σ) (d : σ) : σ :=
  match o with
  | .ret _ _ st => st
  | .panicked => d

/-- The returned byte count of a `WOut` (0 for the panic case). -/
def WOut.count (o : WOut σ) : Nat :=
  match o with
  | .ret n _ _ => n
  | .panicked => 0

/-- The returned error of a `WOut` (none for the panic case). -/
def WOut.errOf (o : WOut σ) : Option WErr :=
  match o with
  | .ret _ e _ => e
  | .panicked => none

/-- Whether a `WOut` is the nil-dereference outcome. -/
def WOut.isPanic (o : WOut σ) : Bool :=
  match o with
  | .ret _ _ _ => false
  | .panicked => true

/-- `BufferedFileWriter.Write` (writer.go lines 144-153): append `p` to
the buffer under the lock; when the write accepted bytes, the dirty flag
was clear and bytes remain buffered, set the dirty flag and signal the
scheduler.  Calling it after `Close` (buffer nil) dereferences nil. -/
def BufferedFileWriter.Write [DecidableEq α]
    (w : BufferedFileWriter α) (p : List Byte) : WOut (BufferedFileWriter α) :=
  match w.buffer, w.writer with
  | none, _ => .panicked
  | some _, none => .panicked
  | some b, some h =>
      let r := bwWrite b w.io h p
      let fire := !w.updated && decide (0 < r.1) && !r.2.2.1.pending.isEmpty
      .ret r.1 (if r.2.1 then some WErr.ioE else none)
        { writer := w.writer
          buffer := some r.2.2.1
          updated := w.updated || fire
          updateChan := if fire then w.updateChan + 1 else w.updateChan
          io := r.2.2.2 }

/-- The flush branch of `BufferedFileWriter.schedule` (writer.go lines
124-139), executed when the flush timer fires: under the lock, when the
writer has not been closed, clear the dirty flag and flush the buffer. -/
def scheduleFlushStep [DecidableEq α]
    (w : BufferedFileWriter α) : WOut (BufferedFileWriter α) :=
  match w.writer with
  | none => .ret 0 none w
  | some h =>
      match w.buffer with
      | none => .panicked
      | some b =>
          let f := bufFlush b w.io h
          .ret 0 (if f.2.2 then some WErr.ioE else none)
            { writer := w.writer
              buffer := some f.1
              updated := false
              updateChan := w.updateChan
              io := f.2.1 }

/-- `BufferedFileWriter.Close` (writer.go lines 156-172): signal the
scheduler to stop, flush the remaining buffered bytes, nil the buffer,
close the file handle, nil the writer; the flush error wins over the
close error.  Closing twice dereferences the nil buffer. -/
def BufferedFileWriter.Close [DecidableEq α]
    (w : BufferedFileWriter α) : WOut (BufferedFileWriter α) :=
  match w.buffer, w.writer with
  | none, _ => .panicked
  | _, none => .panicked
  | some b, some h =>
      let f := bufFlush b w.io h
      let c := wNext f.2.1.world
      let e := if f.2.2 then some WErr.ioE
               else if c.1 = IoRes.ok then none else some WErr.ioE
      .ret 0 e
        { writer := none
          buffer := none
          updated := w.updated
          updateChan := w.updateChan
          io := ⟨f.2.1.fs, c.2⟩ }

/-- Paths touched by a `RotatingFileWriter` with base path `path`:
`active` is `path` itself, `backup i` is the string `path.i` built by
`fmt.Sprintf`.  This algebra is faithful because the rendered strings
are pairwise distinct for distinct indices and never equal the base. -/
inductive FPath where
  | active
  | backup (i : Nat)
deriving DecidableEq, Repr

/-- Trace entries recording which filesystem steps a rotation (and the
buffer write between rotations) performed, in order. -/
inductive FsOp where
  | flushOp
  | closeOp
  | renameOp (src dst : FPath)
  | openOp (p : FPath)
  | bufWrite (n : Nat)
deriving DecidableEq, Repr

/-- The backup shift of `rotate` (writer.go lines 286-290): for
`i = n, n-1, ..., 2`, rename `path.(i-1)` to `path.i`, ignoring errors
(in particular a missing source leaves the filesystem unchanged). -/
def doShift : Nat → Fs FPath → Fs FPath
  | 0, fs => fs
  | 1, fs => fs
  | Nat.succ (Nat.succ m), fs =>
      doShift (m + 1) (fsRename fs (FPath.backup (m + 1)) (FPath.backup (m + 2))).1

/-- The rename operations `doShift n` performs, in order. -/
def shiftOps : Nat → List FsOp
  | 0 => []
  | 1 => []
  | Nat.succ (Nat.succ m) =>
      FsOp.renameOp (FPath.backup (m + 1)) (FPath.backup (m + 2)) :: shiftOps (m + 1)

/-- The `RotatingFileWriter` struct of writer.go: a `BufferedFileWriter`
plus the position counter, the size bound and the backup count.  The
base path is `FPath.active` by construction. -/
structure RotatingFileWriter extends BufferedFileWriter FPath where
  pos : Nat
  maxSize : Nat
  backupCount : Nat
deriving DecidableEq

/-- Outcome of `RotatingFileWriter.rotate`: error, post state and the
trace of filesystem steps performed, or a nil dereference. -/
inductive ROut where
  | ret (err : Option WErr) (st : RotatingFileWriter) (tr : List FsOp)
  | panicked
deriving DecidableEq

/-- The post state of a `ROut`, with a default for the panic case. -/
def ROut.stOr (o : ROut) (d : RotatingFileWriter) : RotatingFileWriter :=
  match o with
  | .ret _ st _ => st
  | .panicked => d

/-- The returned error of a `ROut` (none for the panic case). -/
def ROut.errOf (o : ROut) : Option WErr :=
  match o with
  | .ret e _ _ => e
  | .panicked => none

/-- `RotatingFileWriter.rotate` (writer.go lines 268-309), called under
the lock: a closed writer yields `os.ErrClosed`; otherwise flush the
buffer (a failure aborts with state intact), close the current file
(resetting `pos` to 0 before checking the close error), shift the
numbered backups ignoring errors, rename the active path to `path.1`,
and reopen an empty active file, resetting the buffer onto it.  Every
failure after the close nils both the writer and the buffer. -/
def RotatingFileWriter.rotate (w : RotatingFileWriter) : ROut :=
  match w.writer with
  | none => .ret (some WErr.closedE) w []
  | some h =>
      match w.buffer with
      | none => .panicked
      | some b =>
          let f := bufFlush b w.io h
          if f.2.2 then
            .ret (some WErr.ioE)
              { w with buffer := some f.1, io := f.2.1 } [FsOp.flushOp]
          else
            let c := wNext f.2.1.world
            if c.1 = IoRes.ok then
              let fs3 := doShift w.backupCount f.2.1.fs
              let c2 := wNext c.2
              let ren := fsRename fs3 FPath.active (FPath.backup 1)
              if c2.1 = IoRes.ok ∧ ren.2 then
                let c3 := wNext c2.2
                if c3.1 = IoRes.ok then
                  .ret none
                    { w with
                      writer := some FPath.active
                      buffer := some ⟨[], b.cap, false⟩
                      pos := 0
                      io := ⟨fsOpenApp ren.1 FPath.active, c3.2⟩ }
                    ([FsOp.flushOp, FsOp.closeOp] ++ shiftOps w.backupCount ++
                      [FsOp.renameOp FPath.active (FPath.backup 1),
                       FsOp.openOp FPath.active])
                else
                  .ret (some WErr.ioE)
                    { w with
                      writer := none
                      buffer := none
                      pos := 0
                      io := ⟨ren.1, c3.2⟩ }
                    ([FsOp.flushOp, FsOp.closeOp] ++ shiftOps w.backupCount ++
                      [FsOp.renameOp FPath.active (FPath.backup 1),
                       FsOp.openOp FPath.active])
              else
                .ret (some WErr.ioE)
                  { w with
                    writer := none
                    buffer := none
                    pos := 0
                    io := ⟨fs3, c2.2⟩ }
                  ([FsOp.flushOp, FsOp.closeOp] ++ shiftOps w.backupCount ++
                    [FsOp.renameOp FPath.active (FPath.backup 1)])
            else
              .ret (some WErr.ioE)
                { w with
                  writer := none
                  buffer := none
                  pos := 0
                  io := ⟨f.2.1.fs, c.2⟩ }
                [FsOp.flushOp, FsOp.closeOp]

/-- Outcome of `RotatingFileWriter.Write`: returned count and error,
post state, trace of filesystem steps, or a nil dereference. -/
inductive WROut where
  | ret (n : Nat) (err : Option WErr) (st : RotatingFileWriter) (tr : List FsOp)
  | panicked
deriving DecidableEq

/-- The post state of a `WROut`, with a default for the panic case. -/
def WROut.stOr (o : WROut) (d : RotatingFileWriter) : RotatingFileWriter :=
  match o with
  | .ret _ _ st _ => st
  | .panicked => d

/-- The returned byte count of a `WROut` (0 for the panic case). -/
def WROut.count (o : WROut) : Nat :=
  match o with
  | .ret n _ _ _ => n
  | .panicked => 0

/-- The returned error of a `WROut` (none for the panic case). -/
def WROut.errOf (o : WROut) : Option WErr :=
  match o with
  | .ret _ e _ _ => e
  | .panicked => none

/-- The trace of a `WROut` ([] for the panic case). -/
def WROut.trOf (o : WROut) : List FsOp :=
  match o with
  | .ret _ _ _ tr => tr
  | .panicked => []

/-- Whether a `WROut` is the nil-dereference outcome. -/
def WROut.isPanic (o : WROut) : Bool :=
  match o with
  | .ret _ _ _ _ => false
  | .panicked => true

/-- The tail of the non-oversized branch of `RotatingFileWriter.Write`
(writer.go lines 254-261): write `p` into the buffer; when bytes were
accepted advance `pos` by exactly that count and, when the dirty flag
was clear and bytes remain buffered, set it and signal the scheduler.
Calling it with a nil buffer (the writer was closed or poisoned by a
failed rotation) dereferences nil.  The `writer = none, buffer = some`
case cannot arise (the two fields are always invalidated together). -/
def rotWriteSmall (w : RotatingFileWriter) (p : List Byte) (tr : List FsOp) :
    WROut :=
  match w.buffer, w.writer with
  | none, _ => .panicked
  | some _, none => .panicked
  | some b, some h =>
      let r := bwWrite b w.io h p
      let fire := decide (0 < r.1) && !w.updated && !r.2.2.1.pending.isEmpty
      .ret r.1 (if r.2.1 then some WErr.ioE else none)
        { w with
          buffer := some r.2.2.1
          updated := w.updated || fire
          updateChan := if fire then w.updateChan + 1 else w.updateChan
          io := r.2.2.2
          pos := w.pos + r.1 }
        (tr ++ [FsOp.bufWrite r.1])

/-- `RotatingFileWriter.Write` (writer.go lines 227-265), under the
lock.  A record at least `maxSize` long: rotate, write it to the buffer
(on a buffer error set `pos` to the accepted count and return), rotate
again.  Otherwise rotate first exactly when the record would push `pos`
past `maxSize`, then write into the buffer, advancing `pos` by the
accepted count and signalling the scheduler on a clear dirty flag. -/
def RotatingFileWriter.Write (w : RotatingFileWriter) (p : List Byte) : WROut :=
  let length := p.length
  if w.maxSize ≤ length then
    match w.rotate with
    | .panicked => .panicked
    | .ret (some e) w1 tr => .ret 0 (some e) w1 tr
    | .ret none w1 tr =>
        match w1.buffer, w1.writer with
        | none, _ => .panicked
        | some _, none => .panicked
        | some b, some h =>
            let r := bwWrite b w1.io h p
            let w2 : RotatingFileWriter :=
              { w1 with buffer := some r.2.2.1, io := r.2.2.2 }
            if r.2.1 then
              .ret r.1 (some WErr.ioE) { w2 with pos := r.1 }
                (tr ++ [FsOp.bufWrite r.1])
            else
              match w2.rotate with
              | .panicked => .panicked
              | .ret e3 w3 tr2 =>
                  .ret r.1 e3 w3 (tr ++ [FsOp.bufWrite r.1] ++ tr2)
  else
    if w.maxSize < w.pos + length then
      match w.rotate with
      | .panicked => .panicked
      | .ret (some e) w1 tr => .ret 0 (some e) w1 tr
      | .ret none w1 tr => rotWriteSmall w1 p tr
    else
      rotWriteSmall w p []

/-- A freshly constructed `RotatingFileWriter` over an existing file of
content `d` (`NewRotatingFileWriter`, writer.go lines 186-224): the
position counter starts at the file's current size. -/
def mkRotating (d : List Byte) (cap maxSize backupCount : Nat)
    (wld : World) : RotatingFileWriter :=
  { writer := some FPath.active
    buffer := some ⟨[], cap, false⟩
    updated := false
    updateChan := 0
    io := ⟨[(FPath.active, d)], wld⟩
    pos := d.length
    maxSize := maxSize
    backupCount := backupCount }

example :
    (RotatingFileWriter.Write (mkRotating [] 10 2 2 []) [7, 7, 7]).count = 3 := by
  decide

example :
    fsGet ((RotatingFileWriter.Write (mkRotating [] 10 2 2 [])
      [7, 7, 7]).stOr (mkRotating [] 10 2 2 [])).io.fs (FPath.backup 1) =
      some [7, 7, 7] := by decide

example :
    fsGet ((RotatingFileWriter.Write (mkRotating [] 10 2 2 [])
      [7, 7, 7]).stOr (mkRotating [] 10 2 2 [])).io.fs FPath.active =
      some [] := by decide

example :
    ((RotatingFileWriter.Write (mkRotating [1, 2] 10 4 2 []) [3, 4, 5]).stOr
      (mkRotating [] 10 4 2 [])).pos = 3 := by decide

example :
    fsGet ((RotatingFileWriter.Write (mkRotating [1, 2] 10 4 2 []) [3, 4, 5]).stOr
      (mkRotating [] 10 4 2 [])).io.fs (FPath.backup 1) = some [1, 2] := by decide

/-- The flush-timer step of the background scheduler embedded in a
`RotatingFileWriter` (the inherited `BufferedFileWriter.schedule`): it
only touches the `BufferedFileWriter` fields; `pos`, `maxSize` and
`backupCount` are untouched. -/
def RotatingFileWriter.flushStep (w : RotatingFileWriter) : WROut :=
  match scheduleFlushStep w.toBufferedFileWriter with
  | .ret n e st =>
      .ret n e
        { toBufferedFileWriter := st
          pos := w.pos
          maxSize := w.maxSize
          backupCount := w.backupCount } []
  | .panicked => .panicked

/-- The trace of filesystem steps a fully successful rotation with
backup count `n` performs, in order. -/
def rotTrace (n : Nat) : List FsOp :=
  [FsOp.flushOp, FsOp.closeOp] ++ shiftOps n ++
    [FsOp.renameOp FPath.active (FPath.backup 1), FsOp.openOp FPath.active]

/-- Length of the file at path `h` (0 when absent). -/
def flLen [DecidableEq α] (fs : Fs α) (h : α) : Nat :=
  ((fsGet fs h).getD []).length

/-- The true byte length of the current active file of a
`RotatingFileWriter`: the bytes already on disk plus the bytes still
pending in the buffer (which belong to the active file once flushed). -/
def logicalActive (w : RotatingFileWriter) : Nat :=
  flLen w.io.fs FPath.active +
    (match w.buffer with
     | some b => b.pending.length
     | none => 0)

/-- The position-counter invariant of the spec: whenever the writer is
open, `pos` equals the active file's true byte length. -/
def posInv (w : RotatingFileWriter) : Prop :=
  w.writer = some FPath.active → w.pos = logicalActive w

/-- Structural well-formedness a `RotatingFileWriter` always satisfies:
either it is open (writer at the base path, buffer present and within
capacity) or it is closed/poisoned (both fields nil). -/
def RotWF (w : RotatingFileWriter) : Prop :=
  (∃ b, w.writer = some FPath.active ∧ w.buffer = some b ∧
    b.pending.length ≤ b.cap) ∨
  (w.writer = none ∧ w.buffer = none)

/-- A freshly constructed `BufferedFileWriter` (`NewBufferedFileWriter`,
writer.go lines 97-110) over an existing file of content `d`. -/
def mkBuffered (path : String) (cap : Nat) (d : List Byte) (wld : World) :
    BufferedFileWriter String :=
  { writer := some path
    buffer := some ⟨[], cap, false⟩
    updated := false
    updateChan := 0
    io := ⟨[(path, d)], wld⟩ }

/-- Run a serialized sequence of `Write` calls (the mutex serializes
concurrent callers, in an unspecified order; the list is one such
order); `none` when some call dereferenced nil. -/
def runWrites [DecidableEq α] :
    BufferedFileWriter α → List (List Byte) → Option (BufferedFileWriter α)
  | w, [] => some w
  | w, p :: t =>
      match BufferedFileWriter.Write w p with
      | .ret _ _ w' => runWrites w' t
      | .panicked => none

/-- The `TimedRotatingFileWriter` struct of writer.go: a
`BufferedFileWriter` over string paths plus the path prefix (`pfx`
embeds the Go field `pathPrefix`), the retention count, whether the
one-shot rotate timer is currently armed (it fires again only after a
`Reset`), and the timestamp suffix the injectable clock would render
now (`now().Format(...)` in `openTimedRotatingFile`). -/
structure TimedRotatingFileWriter extends BufferedFileWriter String where
  pfx : String
  backupCount : Nat
  rotateArmed : Bool
  clockName : String
deriving DecidableEq

/-- Outcome of `TimedRotatingFileWriter.rotate`. -/
inductive TROut where
  | ret (err : Option WErr) (st : TimedRotatingFileWriter)
  | panicked
deriving DecidableEq

/-- The post state of a `TROut`, with a default for the panic case. -/
def TROut.stOr (o : TROut) (d : TimedRotatingFileWriter) :
    TimedRotatingFileWriter :=
  match o with
  | .ret _ st => st
  | .panicked => d

/-- The returned error of a `TROut` (none for the panic case). -/
def TROut.errOf (o : TROut) : Option WErr :=
  match o with
  | .ret e _ => e
  | .panicked => none

/-- `TimedRotatingFileWriter.rotate` (writer.go lines 404-440), run when
the rotate timer fires: a closed writer yields `os.ErrClosed`; then
flush the buffer (failure returns with state intact), close the current
file (failure returns with the writer field kept), open the file named
with the current timestamp suffix (failure nils writer and buffer), bind
the buffer to it and re-arm the rotate timer for the next boundary.
Only this success path resets the timer.  The asynchronous purge pass it
launches is modelled separately by `TimedRotatingFileWriter.purge`. -/
def TimedRotatingFileWriter.rotate (w : TimedRotatingFileWriter) : TROut :=
  match w.writer, w.buffer with
  | none, _ => .ret (some WErr.closedE) w
  | some _, none => .panicked
  | some h, some b =>
      let f := bufFlush b w.io h
      if f.2.2 then
        .ret (some WErr.ioE) { w with buffer := some f.1, io := f.2.1 }
      else
        let c := wNext f.2.1.world
        if c.1 = IoRes.ok then
          let newName := w.pfx ++ w.clockName
          let c2 := wNext c.2
          if c2.1 = IoRes.ok then
            .ret none
              { w with
                writer := some newName
                buffer := some ⟨[], b.cap, false⟩
                io := ⟨fsOpenApp f.2.1.fs newName, c2.2⟩
                rotateArmed := true }
          else
            .ret (some WErr.ioE)
              { w with
                writer := none
                buffer := none
                io := ⟨f.2.1.fs, c2.2⟩ }
        else
          .ret (some WErr.ioE)
            { w with buffer := some f.1, io := ⟨f.2.1.fs, c.2⟩ }

/-- The scheduler's handling of a rotate-timer fire (writer.go lines
362-366 and 389-393): receiving from the one-shot timer's channel
disarms it, then `rotate` runs; only a successful rotation re-arms it. -/
def rotateFired (w : TimedRotatingFileWriter) : TROut :=
  TimedRotatingFileWriter.rotate { w with rotateArmed := false }

/-- Lexicographic comparison of character lists by code point; on the
ASCII file names at hand this agrees with Go's byte-wise `sort.Strings`
order. -/
def strListLe : List Char → List Char → Bool
  | [], _ => true
  | _ :: _, [] => false
  | a :: as, b :: bs =>
      if a.val.toNat < b.val.toNat then true
      else if b.val.toNat < a.val.toNat then false
      else strListLe as bs

/-- Lexicographic order on strings (`sort.Strings`). -/
def strLe (a b : String) : Bool :=
  strListLe a.data b.data

/-- Whether `s` matches the glob pattern `p ++ "*"`, i.e. starts with
`p` (`filepath.Glob(w.pathPrefix + "*")`). -/
def strHasPre (p s : String) : Bool :=
  p.data.isPrefixOf s.data

/-- The deletion loop of `purge` (writer.go lines 459-467) over the
candidate paths: the currently open file's name is skipped without a
syscall; every other candidate is attempted (a failed `os.Remove` is
reported and the loop continues).  Returns the filesystem, the script
remainder and the attempted deletions with their success flags. -/
def purgeLoop (name : String) :
    Fs String → World → List String → Fs String × World × List (String × Bool)
  | fs, wld, [] => (fs, wld, [])
  | fs, wld, p :: t =>
      if p = name then purgeLoop name fs wld t
      else
        let c := wNext wld
        if c.1 = IoRes.ok then
          let r := purgeLoop name (fsDel fs p) c.2 t
          (r.1, r.2.1, (p, true) :: r.2.2)
        else
          let r := purgeLoop name fs c.2 t
          (r.1, r.2.1, (p, false) :: r.2.2)

/-- The glob pass of `purge`: `filepath.Glob(w.pathPrefix + "*")`, the
names of all files sharing the prefix. -/
def purgePaths (w : TimedRotatingFileWriter) : List String :=
  (w.io.fs.map Prod.fst).filter (fun s => strHasPre w.pfx s)

/-- The globbed names sorted lexicographically (`sort.Strings`). -/
def purgeSorted (w : TimedRotatingFileWriter) : List String :=
  List.insertionSort (fun a b => strLe a b = true) (purgePaths w)

/-- `TimedRotatingFileWriter.purge` (writer.go lines 443-469): glob all
files whose name starts with the prefix, and when their number exceeds
`backupCount + 1`, sort them and attempt to delete the excess oldest,
skipping the currently open file (the empty name when closed). -/
def TimedRotatingFileWriter.purge (w : TimedRotatingFileWriter) :
    TimedRotatingFileWriter × List (String × Bool) :=
  let paths := purgePaths w
  if w.backupCount + 1 < paths.length then
    let k := paths.length - w.backupCount - 1
    let name :=
      match w.writer with
      | some f => f
      | none => ""
    let r := purgeLoop name w.io.fs w.io.world ((purgeSorted w).take k)
    ({ w with io := ⟨r.1, r.2.1⟩ }, r.2.2)
  else (w, [])

/-- A `TimedRotatingFileWriter` as `NewTimedRotatingFileWriter` builds
it (writer.go lines 322-346): the active file `pfx ++ clock` is opened
(created when absent) over the pre-existing files, the buffer is fresh
and the rotate timer armed for the first boundary. -/
def mkTimed (pfx0 clock : String) (cap bc : Nat) (files : Fs String)
    (wld : World) : TimedRotatingFileWriter :=
  { writer := some (pfx0 ++ clock)
    buffer := some ⟨[], cap, false⟩
    updated := false
    updateChan := 0
    io := ⟨fsOpenApp files (pfx0 ++ clock), wld⟩
    pfx := pfx0
    backupCount := bc
    rotateArmed := true
    clockName := clock }

/-! ### Association-list filesystem lemmas -/

theorem fsGet_fsSet_self [DecidableEq α] (fs : Fs α) (p : α) (d : List Byte) :
    fsGet (fsSet fs p d) p = some d := by
  induction fs with
  | nil => simp [fsSet, fsGet]
  | cons kv t ih =>
      obtain ⟨q, e⟩ := kv
      by_cases h : q = p
      · simp [fsSet, fsGet, h]
      · simp [fsSet, fsGet, h, ih]

theorem fsGet_fsSet_ne [DecidableEq α] (fs : Fs α) {p q : α} (d : List Byte)
    (h : q ≠ p) : fsGet (fsSet fs p d) q = fsGet fs q := by
  induction fs with
  | nil => simp [fsSet, fsGet, Ne.symm h]
  | cons kv t ih =>
      obtain ⟨r, e⟩ := kv
      by_cases hr : r = p
      · subst hr
        simp [fsSet, fsGet, Ne.symm h]
      · simp only [fsSet, if_neg hr, fsGet]
        by_cases hq : r = q
        · simp [hq]
        · simp [hq, ih]

theorem fsGet_fsDel_self [DecidableEq α] (fs : Fs α) (p : α) :
    fsGet (fsDel fs p) p = none := by
  induction fs with
  | nil => simp [fsDel, fsGet]
  | cons kv t ih =>
      obtain ⟨q, e⟩ := kv
      by_cases h : q = p
      · simpa [fsDel, h] using ih
      · simp [fsDel, h, fsGet, ih]

theorem fsGet_fsDel_ne [DecidableEq α] (fs : Fs α) {p q : α}
    (h : q ≠ p) : fsGet (fsDel fs p) q = fsGet fs q := by
  induction fs with
  | nil => simp [fsDel, fsGet]
  | cons kv t ih =>
      obtain ⟨r, e⟩ := kv
      by_cases hr : r = p
      · subst hr
        simp [fsDel, fsGet, Ne.symm h, ih]
      · by_cases hq : r = q
        · simp [fsDel, hr, hq, fsGet, h]
        · simp [fsDel, hr, hq, fsGet, ih]

theorem fsRename_get_other [DecidableEq α] (fs : Fs α) {src dst q : α}
    (hs : q ≠ src) (hd : q ≠ dst) :
    fsGet (fsRename fs src dst).1 q = fsGet fs q := by
  unfold fsRename
  cases h : fsGet fs src with
  | none => rfl
  | some d => simp [fsGet_fsSet_ne _ _ hd, fsGet_fsDel_ne _ hs]

theorem fsGet_fsAppend_self [DecidableEq α] (fs : Fs α) (h : α)
    (x : List Byte) {d : List Byte} (hd : fsGet fs h = some d) :
    fsGet (fsAppend fs h x) h = some (d ++ x) := by
  unfold fsAppend
  rw [hd]
  exact fsGet_fsSet_self fs h (d ++ x)

theorem fsGet_fsAppend_ne [DecidableEq α] (fs : Fs α) {h q : α}
    (x : List Byte) (hq : q ≠ h) :
    fsGet (fsAppend fs h x) q = fsGet fs q := by
  unfold fsAppend
  cases hg : fsGet fs h with
  | none => exact fsGet_fsSet_ne fs x hq
  | some e => exact fsGet_fsSet_ne fs _ hq

theorem fsSet_get_self [DecidableEq α] (fs : Fs α) (p : α) {d : List Byte}
    (hd : fsGet fs p = some d) : fsSet fs p d = fs := by
  induction fs with
  | nil => simp [fsGet] at hd
  | cons kv t ih =>
      obtain ⟨q, e⟩ := kv
      by_cases h : q = p
      · subst h
        have he : e = d := by simpa [fsGet] using hd
        subst he
        simp [fsSet]
      · simp only [fsGet, if_neg h] at hd
        simp [fsSet, h, ih hd]

theorem fsGet_fsOpenApp_ne [DecidableEq α] (fs : Fs α) {p q : α}
    (hq : q ≠ p) : fsGet (fsOpenApp fs p) q = fsGet fs q := by
  unfold fsOpenApp
  cases hg : fsGet fs p with
  | none => exact fsGet_fsSet_ne fs [] hq
  | some e => rfl

theorem fsGet_fsOpenApp_self [DecidableEq α] (fs : Fs α) (p : α) :
    fsGet (fsOpenApp fs p) p = some ((fsGet fs p).getD []) := by
  unfold fsOpenApp
  cases hg : fsGet fs p with
  | none => simp [hg, fsGet_fsSet_self]
  | some e => simp [hg]

/-! ### Lemmas about the underlying file write and the bufio model -/

theorem fileWrite_le [DecidableEq α] (io : FIo α) (h : α) (p : List Byte) :
    (fileWrite io h p).1 ≤ p.length := by
  obtain ⟨fs, wld⟩ := io
  cases wld with
  | nil => simp [fileWrite, wNext]
  | cons r t => cases r <;> simp [fileWrite, wNext]

theorem fileWrite_fs [DecidableEq α] (io : FIo α) (h : α) (p : List Byte)
    {d : List Byte} (hd : fsGet io.fs h = some d) :
    fsGet (fileWrite io h p).2.2.fs h =
      some (d ++ p.take (fileWrite io h p).1) := by
  obtain ⟨fs, wld⟩ := io
  cases wld with
  | nil => simp [fileWrite, wNext, fsGet_fsAppend_self _ _ _ hd]
  | cons r t =>
      cases r with
      | ok => simp [fileWrite, wNext, fsGet_fsAppend_self _ _ _ hd]
      | fail => simpa [fileWrite, wNext] using hd
      | part n => simp [fileWrite, wNext, fsGet_fsAppend_self _ _ _ hd]

theorem fileWrite_ne [DecidableEq α] (io : FIo α) {h q : α} (p : List Byte)
    (hq : q ≠ h) :
    fsGet (fileWrite io h p).2.2.fs q = fsGet io.fs q := by
  obtain ⟨fs, wld⟩ := io
  cases wld with
  | nil => simp [fileWrite, wNext, fsGet_fsAppend_ne _ _ hq]
  | cons r t => cases r <;> simp [fileWrite, wNext, fsGet_fsAppend_ne _ _ hq]

theorem fileWrite_ok [DecidableEq α] (io : FIo α) (h : α) (p : List Byte)
    (he : (fileWrite io h p).2.1 = false) :
    (fileWrite io h p).1 = p.length := by
  obtain ⟨fs, wld⟩ := io
  cases wld with
  | nil => simp [fileWrite, wNext]
  | cons r t =>
      cases r with
      | ok => simp [fileWrite, wNext]
      | fail => simp [fileWrite, wNext] at he
      | part n =>
          simp only [fileWrite, wNext, decide_eq_false_iff_not, not_lt] at he
          simp only [fileWrite, wNext]
          omega

theorem fileWrite_nilWorld [DecidableEq α] (io : FIo α) (h : α) (p : List Byte)
    (hw : io.world = []) :
    fileWrite io h p = (p.length, false, ⟨fsAppend io.fs h p, []⟩) := by
  obtain ⟨fs, wld⟩ := io
  subst hw
  simp [fileWrite, wNext]

theorem bufFlush_cap [DecidableEq α] (b : BufState) (io : FIo α) (h : α) :
    (bufFlush b io h).1.cap = b.cap := by
  obtain ⟨pend, cap, err⟩ := b
  unfold bufFlush
  cases err with
  | true => rfl
  | false =>
      by_cases hp : pend.isEmpty
      · simp [hp]
      · by_cases hf : (fileWrite io h pend).2.1 <;> simp [hp, hf]

theorem bufFlush_ne [DecidableEq α] (b : BufState) (io : FIo α) {h q : α}
    (hq : q ≠ h) :
    fsGet (bufFlush b io h).2.1.fs q = fsGet io.fs q := by
  obtain ⟨pend, cap, err⟩ := b
  unfold bufFlush
  cases err with
  | true => rfl
  | false =>
      by_cases hp : pend.isEmpty
      · simp [hp]
      · by_cases hf : (fileWrite io h pend).2.1 <;>
          simp [hp, hf, fileWrite_ne _ _ hq]

theorem bufFlush_content [DecidableEq α] (b : BufState) (io : FIo α) (h : α)
    {d : List Byte} (hd : fsGet io.fs h = some d) :
    ∃ d', fsGet (bufFlush b io h).2.1.fs h = some d' ∧
      d' ++ (bufFlush b io h).1.pending = d ++ b.pending := by
  obtain ⟨pend, cap, err⟩ := b
  unfold bufFlush
  cases err with
  | true => exact ⟨d, hd, rfl⟩
  | false =>
      by_cases hp : pend.isEmpty
      · refine ⟨d, by simpa [hp] using hd, ?_⟩
        rw [List.isEmpty_iff] at hp
        simp [hp]
      · by_cases hf : (fileWrite io h pend).2.1
        · refine ⟨d ++ pend.take (fileWrite io h pend).1, ?_, ?_⟩
          · simpa [hp, hf] using fileWrite_fs io h pend hd
          · simp [hp, hf, List.append_assoc, List.take_append_drop]
        · refine ⟨d ++ pend.take (fileWrite io h pend).1, ?_, ?_⟩
          · simpa [hp, hf] using fileWrite_fs io h pend hd
          · have := fileWrite_ok io h pend (by simpa using hf)
            simp [hp, hf, this]

theorem bufFlush_pending_le [DecidableEq α] (b : BufState) (io : FIo α)
    (h : α) : (bufFlush b io h).1.pending.length ≤ b.pending.length := by
  obtain ⟨pend, cap, err⟩ := b
  unfold bufFlush
  cases err with
  | true => simp
  | false =>
      by_cases hp : pend.isEmpty
      · simp [hp]
      · by_cases hf : (fileWrite io h pend).2.1 <;> simp [hp, hf]

theorem bufFlush_ok_pending [DecidableEq α] (b : BufState) (io : FIo α)
    (h : α) (he : b.errFlag = false)
    (hok : (bufFlush b io h).2.2 = false) :
    (bufFlush b io h).1.pending = [] := by
  obtain ⟨pend, cap, err⟩ := b
  subst he
  unfold bufFlush at hok ⊢
  by_cases hp : pend.isEmpty
  · rw [List.isEmpty_iff] at hp
    simp [hp]
  · by_cases hf : (fileWrite io h pend).2.1
    · simp [hp, hf] at hok
    · simp [hp, hf]

theorem bufFlush_errFlag [DecidableEq α] (b : BufState) (io : FIo α)
    (h : α) (he : b.errFlag = false) :
    (bufFlush b io h).1.errFlag = (bufFlush b io h).2.2 := by
  obtain ⟨pend, cap, err⟩ := b
  subst he
  unfold bufFlush
  by_cases hp : pend.isEmpty
  · simp [hp]
  · by_cases hf : (fileWrite io h pend).2.1 <;> simp [hp, hf]

theorem bufFlush_nilWorld [DecidableEq α] (b : BufState) (io : FIo α) (h : α)
    {d : List Byte} (he : b.errFlag = false) (hw : io.world = [])
    (hd : fsGet io.fs h = some d) :
    bufFlush b io h =
      (⟨[], b.cap, false⟩, ⟨fsSet io.fs h (d ++ b.pending), []⟩, false) := by
  obtain ⟨pend, cap, err⟩ := b
  obtain ⟨fs, wld⟩ := io
  subst he hw
  unfold bufFlush
  by_cases hp : pend.isEmpty
  · rw [List.isEmpty_iff] at hp
    subst hp
    simp only [List.isEmpty_nil, if_true, if_false, Bool.false_eq_true]
    rw [List.append_nil, fsSet_get_self fs h hd]
  · have hfw := fileWrite_nilWorld ⟨fs, []⟩ h pend rfl
    simp [hp, hfw, fsAppend, hd]

theorem bwWrite_eq_err [DecidableEq α] (b : BufState) (io : FIo α) (h : α)
    (p : List Byte) (he : b.errFlag = true) :
    bwWrite b io h p = (0, true, b, io) := by
  unfold bwWrite
  rw [if_pos he]

theorem bwWrite_eq_fit [DecidableEq α] (b : BufState) (io : FIo α) (h : α)
    (p : List Byte) (he : b.errFlag = false)
    (hfit : p.length ≤ b.cap - b.pending.length) :
    bwWrite b io h p =
      (p.length, false, ⟨b.pending ++ p, b.cap, false⟩, io) := by
  unfold bwWrite
  rw [he]
  simp only [Bool.false_eq_true, if_false]
  rw [if_pos hfit]

theorem bwWrite_eq_direct [DecidableEq α] (b : BufState) (io : FIo α) (h : α)
    (p : List Byte) (he : b.errFlag = false)
    (hnfit : ¬ p.length ≤ b.cap - b.pending.length)
    (hp0 : b.pending.length = 0) :
    bwWrite b io h p =
      ((fileWrite io h p).1, (fileWrite io h p).2.1,
        ⟨[], b.cap, (fileWrite io h p).2.1⟩, (fileWrite io h p).2.2) := by
  unfold bwWrite
  rw [he]
  simp only [Bool.false_eq_true, if_false]
  rw [if_neg hnfit, if_pos hp0]

theorem bwWrite_eq_spill_err [DecidableEq α] (b : BufState) (io : FIo α)
    (h : α) (p : List Byte) (he : b.errFlag = false)
    (hnfit : ¬ p.length ≤ b.cap - b.pending.length)
    (hp0 : ¬ b.pending.length = 0)
    (hf : (bufFlush ⟨b.pending ++ p.take (b.cap - b.pending.length),
      b.cap, false⟩ io h).2.2 = true) :
    bwWrite b io h p =
      (b.cap - b.pending.length, true,
        (bufFlush ⟨b.pending ++ p.take (b.cap - b.pending.length),
          b.cap, false⟩ io h).1,
        (bufFlush ⟨b.pending ++ p.take (b.cap - b.pending.length),
          b.cap, false⟩ io h).2.1) := by
  unfold bwWrite
  rw [he]
  simp only [Bool.false_eq_true, if_false]
  rw [if_neg hnfit, if_neg hp0]
  simp only [if_pos hf]

theorem bwWrite_eq_spill_fit [DecidableEq α] (b : BufState) (io : FIo α)
    (h : α) (p : List Byte) (he : b.errFlag = false)
    (hnfit : ¬ p.length ≤ b.cap - b.pending.length)
    (hp0 : ¬ b.pending.length = 0)
    (hf : (bufFlush ⟨b.pending ++ p.take (b.cap - b.pending.length),
      b.cap, false⟩ io h).2.2 = false)
    (hfit2 : (p.drop (b.cap - b.pending.length)).length ≤ b.cap) :
    bwWrite b io h p =
      (b.cap - b.pending.length + (p.drop (b.cap - b.pending.length)).length,
        false,
        ⟨p.drop (b.cap - b.pending.length), b.cap, false⟩,
        (bufFlush ⟨b.pending ++ p.take (b.cap - b.pending.length),
          b.cap, false⟩ io h).2.1) := by
  unfold bwWrite
  rw [he]
  simp only [Bool.false_eq_true, if_false]
  rw [if_neg hnfit, if_neg hp0]
  simp only [hf, Bool.false_eq_true, if_false]
  rw [if_pos hfit2]

theorem bwWrite_eq_spill_direct [DecidableEq α] (b : BufState) (io : FIo α)
    (h : α) (p : List Byte) (he : b.errFlag = false)
    (hnfit : ¬ p.length ≤ b.cap - b.pending.length)
    (hp0 : ¬ b.pending.length = 0)
    (hf : (bufFlush ⟨b.pending ++ p.take (b.cap - b.pending.length),
      b.cap, false⟩ io h).2.2 = false)
    (hnfit2 : ¬ (p.drop (b.cap - b.pending.length)).length ≤ b.cap) :
    bwWrite b io h p =
      (b.cap - b.pending.length +
        (fileWrite (bufFlush ⟨b.pending ++ p.take (b.cap - b.pending.length),
          b.cap, false⟩ io h).2.1 h (p.drop (b.cap - b.pending.length))).1,
        (fileWrite (bufFlush ⟨b.pending ++ p.take (b.cap - b.pending.length),
          b.cap, false⟩ io h).2.1 h (p.drop (b.cap - b.pending.length))).2.1,
        ⟨[], b.cap,
          (fileWrite (bufFlush ⟨b.pending ++ p.take (b.cap - b.pending.length),
            b.cap, false⟩ io h).2.1 h
            (p.drop (b.cap - b.pending.length))).2.1⟩,
        (fileWrite (bufFlush ⟨b.pending ++ p.take (b.cap - b.pending.length),
          b.cap, false⟩ io h).2.1 h
          (p.drop (b.cap - b.pending.length))).2.2) := by
  unfold bwWrite
  rw [he]
  simp only [Bool.false_eq_true, if_false]
  rw [if_neg hnfit, if_neg hp0]
  simp only [hf, Bool.false_eq_true, if_false]
  rw [if_neg hnfit2]

theorem bwWrite_cap [DecidableEq α] (b : BufState) (io : FIo α) (h : α)
    (p : List Byte) : (bwWrite b io h p).2.2.1.cap = b.cap := by
  by_cases h1 : b.errFlag = true
  · rw [bwWrite_eq_err b io h p h1]
  · rw [Bool.not_eq_true] at h1
    by_cases h2 : p.length ≤ b.cap - b.pending.length
    · rw [bwWrite_eq_fit b io h p h1 h2]
    · by_cases h3 : b.pending.length = 0
      · rw [bwWrite_eq_direct b io h p h1 h2 h3]
      · by_cases h4 : (bufFlush ⟨b.pending ++ p.take (b.cap - b.pending.length),
          b.cap, false⟩ io h).2.2 = true
        · rw [bwWrite_eq_spill_err b io h p h1 h2 h3 h4]
          exact bufFlush_cap _ io h
        · rw [Bool.not_eq_true] at h4
          by_cases h5 : (p.drop (b.cap - b.pending.length)).length ≤ b.cap
          · rw [bwWrite_eq_spill_fit b io h p h1 h2 h3 h4 h5]
          · rw [bwWrite_eq_spill_direct b io h p h1 h2 h3 h4 h5]

theorem bwWrite_ne [DecidableEq α] (b : BufState) (io : FIo α) {h q : α}
    (p : List Byte) (hq : q ≠ h) :
    fsGet (bwWrite b io h p).2.2.2.fs q = fsGet io.fs q := by
  by_cases h1 : b.errFlag = true
  · rw [bwWrite_eq_err b io h p h1]
  · rw [Bool.not_eq_true] at h1
    by_cases h2 : p.length ≤ b.cap - b.pending.length
    · rw [bwWrite_eq_fit b io h p h1 h2]
    · by_cases h3 : b.pending.length = 0
      · rw [bwWrite_eq_direct b io h p h1 h2 h3]
        exact fileWrite_ne io p hq
      · by_cases h4 : (bufFlush ⟨b.pending ++ p.take (b.cap - b.pending.length),
          b.cap, false⟩ io h).2.2 = true
        · rw [bwWrite_eq_spill_err b io h p h1 h2 h3 h4]
          exact bufFlush_ne _ io hq
        · rw [Bool.not_eq_true] at h4
          by_cases h5 : (p.drop (b.cap - b.pending.length)).length ≤ b.cap
          · rw [bwWrite_eq_spill_fit b io h p h1 h2 h3 h4 h5]
            exact bufFlush_ne _ io hq
          · rw [bwWrite_eq_spill_direct b io h p h1 h2 h3 h4 h5]
            rw [fileWrite_ne _ _ hq]
            exact bufFlush_ne _ io hq

theorem bwWrite_content [DecidableEq α] (b : BufState) (io : FIo α) (h : α)
    (p : List Byte) {d : List Byte} (hd : fsGet io.fs h = some d) :
    ∃ d', fsGet (bwWrite b io h p).2.2.2.fs h = some d' ∧
      d' ++ (bwWrite b io h p).2.2.1.pending =
        d ++ b.pending ++ p.take (bwWrite b io h p).1 := by
  by_cases h1 : b.errFlag = true
  · rw [bwWrite_eq_err b io h p h1]
    exact ⟨d, hd, by simp⟩
  · rw [Bool.not_eq_true] at h1
    by_cases h2 : p.length ≤ b.cap - b.pending.length
    · rw [bwWrite_eq_fit b io h p h1 h2]
      exact ⟨d, hd, by simp⟩
    · by_cases h3 : b.pending.length = 0
      · rw [bwWrite_eq_direct b io h p h1 h2 h3]
        refine ⟨d ++ p.take (fileWrite io h p).1, fileWrite_fs io h p hd, ?_⟩
        rw [List.length_eq_zero] at h3
        simp [h3]
      · by_cases h4 : (bufFlush ⟨b.pending ++ p.take (b.cap - b.pending.length),
          b.cap, false⟩ io h).2.2 = true
        · rw [bwWrite_eq_spill_err b io h p h1 h2 h3 h4]
          obtain ⟨d', hfd, hcat⟩ := bufFlush_content
            ⟨b.pending ++ p.take (b.cap - b.pending.length), b.cap, false⟩
            io h hd
          exact ⟨d', hfd, by simpa [List.append_assoc] using hcat⟩
        · rw [Bool.not_eq_true] at h4
          obtain ⟨d', hfd, hcat⟩ := bufFlush_content
            ⟨b.pending ++ p.take (b.cap - b.pending.length), b.cap, false⟩
            io h hd
          have hfp : (bufFlush ⟨b.pending ++ p.take (b.cap - b.pending.length),
              b.cap, false⟩ io h).1.pending = [] :=
            bufFlush_ok_pending _ io h rfl h4
          rw [hfp, List.append_nil] at hcat
          have hk : b.cap - b.pending.length ≤ p.length := by omega
          by_cases h5 : (p.drop (b.cap - b.pending.length)).length ≤ b.cap
          · rw [bwWrite_eq_spill_fit b io h p h1 h2 h3 h4 h5]
            refine ⟨d', hfd, ?_⟩
            rw [hcat]
            have hlen : b.cap - b.pending.length +
                (p.drop (b.cap - b.pending.length)).length = p.length := by
              simp only [List.length_drop]
              omega
            rw [hlen, List.take_length, List.append_assoc, List.append_assoc,
              List.take_append_drop, ← List.append_assoc]
          · rw [bwWrite_eq_spill_direct b io h p h1 h2 h3 h4 h5]
            refine ⟨d' ++ (p.drop (b.cap - b.pending.length)).take
              (fileWrite (bufFlush ⟨b.pending ++
                p.take (b.cap - b.pending.length), b.cap, false⟩ io h).2.1 h
                (p.drop (b.cap - b.pending.length))).1,
              fileWrite_fs _ _ _ hfd, ?_⟩
            rw [List.append_nil, hcat, List.take_add, List.append_assoc,
              List.append_assoc, List.append_assoc]

theorem bwWrite_ok_full [DecidableEq α] (b : BufState) (io : FIo α) (h : α)
    (p : List Byte) (hok : (bwWrite b io h p).2.1 = false) :
    (bwWrite b io h p).1 = p.length := by
  by_cases h1 : b.errFlag = true
  · rw [bwWrite_eq_err b io h p h1] at hok
    simp at hok
  · rw [Bool.not_eq_true] at h1
    by_cases h2 : p.length ≤ b.cap - b.pending.length
    · rw [bwWrite_eq_fit b io h p h1 h2]
    · by_cases h3 : b.pending.length = 0
      · rw [bwWrite_eq_direct b io h p h1 h2 h3] at hok ⊢
        exact fileWrite_ok io h p hok
      · by_cases h4 : (bufFlush ⟨b.pending ++ p.take (b.cap - b.pending.length),
          b.cap, false⟩ io h).2.2 = true
        · rw [bwWrite_eq_spill_err b io h p h1 h2 h3 h4] at hok
          simp at hok
        · rw [Bool.not_eq_true] at h4
          by_cases h5 : (p.drop (b.cap - b.pending.length)).length ≤ b.cap
          · rw [bwWrite_eq_spill_fit b io h p h1 h2 h3 h4 h5]
            simp only [List.length_drop]
            omega
          · rw [bwWrite_eq_spill_direct b io h p h1 h2 h3 h4 h5] at hok ⊢
            have := fileWrite_ok _ h _ hok
            rw [this]
            simp only [List.length_drop]
            omega

theorem bwWrite_pending_le [DecidableEq α] (b : BufState) (io : FIo α)
    (h : α) (p : List Byte) (hp : b.pending.length ≤ b.cap) :
    (bwWrite b io h p).2.2.1.pending.length ≤ b.cap := by
  by_cases h1 : b.errFlag = true
  · rw [bwWrite_eq_err b io h p h1]
    exact hp
  · rw [Bool.not_eq_true] at h1
    by_cases h2 : p.length ≤ b.cap - b.pending.length
    · rw [bwWrite_eq_fit b io h p h1 h2]
      simp only [List.length_append]
      omega
    · by_cases h3 : b.pending.length = 0
      · rw [bwWrite_eq_direct b io h p h1 h2 h3]
        simp
      · by_cases h4 : (bufFlush ⟨b.pending ++ p.take (b.cap - b.pending.length),
          b.cap, false⟩ io h).2.2 = true
        · rw [bwWrite_eq_spill_err b io h p h1 h2 h3 h4]
          have hle := bufFlush_pending_le
            ⟨b.pending ++ p.take (b.cap - b.pending.length), b.cap, false⟩ io h
          simp only [List.length_append, List.length_take] at hle
          show (bufFlush ⟨b.pending ++ p.take (b.cap - b.pending.length),
            b.cap, false⟩ io h).1.pending.length ≤ b.cap
          omega
        · rw [Bool.not_eq_true] at h4
          by_cases h5 : (p.drop (b.cap - b.pending.length)).length ≤ b.cap
          · rw [bwWrite_eq_spill_fit b io h p h1 h2 h3 h4 h5]
            exact h5
          · rw [bwWrite_eq_spill_direct b io h p h1 h2 h3 h4 h5]
            simp

theorem bwWrite_errFlag [DecidableEq α] (b : BufState) (io : FIo α) (h : α)
    (p : List Byte) (he : b.errFlag = false) :
    (bwWrite b io h p).2.2.1.errFlag = (bwWrite b io h p).2.1 := by
  by_cases h2 : p.length ≤ b.cap - b.pending.length
  · rw [bwWrite_eq_fit b io h p he h2]
  · by_cases h3 : b.pending.length = 0
    · rw [bwWrite_eq_direct b io h p he h2 h3]
    · by_cases h4 : (bufFlush ⟨b.pending ++ p.take (b.cap - b.pending.length),
        b.cap, false⟩ io h).2.2 = true
      · rw [bwWrite_eq_spill_err b io h p he h2 h3 h4]
        have := bufFlush_errFlag
          ⟨b.pending ++ p.take (b.cap - b.pending.length), b.cap, false⟩ io h
          rfl
        rw [this, h4]
      · rw [Bool.not_eq_true] at h4
        by_cases h5 : (p.drop (b.cap - b.pending.length)).length ≤ b.cap
        · rw [bwWrite_eq_spill_fit b io h p he h2 h3 h4 h5]
        · rw [bwWrite_eq_spill_direct b io h p he h2 h3 h4 h5]

theorem bwWrite_nilWorld [DecidableEq α] (b : BufState) (io : FIo α) (h : α)
    (p : List Byte) {d : List Byte} (he : b.errFlag = false)
    (hw : io.world = []) (hd : fsGet io.fs h = some d) :
    (bwWrite b io h p).2.1 = false ∧ (bwWrite b io h p).1 = p.length ∧
      (bwWrite b io h p).2.2.2.world = [] ∧
      (bwWrite b io h p).2.2.1.errFlag = false := by
  by_cases h2 : p.length ≤ b.cap - b.pending.length
  · rw [bwWrite_eq_fit b io h p he h2]
    exact ⟨rfl, rfl, hw, rfl⟩
  · by_cases h3 : b.pending.length = 0
    · rw [bwWrite_eq_direct b io h p he h2 h3]
      rw [fileWrite_nilWorld io h p hw]
      exact ⟨rfl, rfl, rfl, rfl⟩
    · have hbf := bufFlush_nilWorld
        ⟨b.pending ++ p.take (b.cap - b.pending.length), b.cap, false⟩ io h
        rfl hw hd
      have h4 : (bufFlush ⟨b.pending ++ p.take (b.cap - b.pending.length),
          b.cap, false⟩ io h).2.2 = false := by rw [hbf]
      by_cases h5 : (p.drop (b.cap - b.pending.length)).length ≤ b.cap
      · rw [bwWrite_eq_spill_fit b io h p he h2 h3 h4 h5]
        refine ⟨rfl, ?_, ?_, rfl⟩
        · simp only [List.length_drop]
          omega
        · rw [hbf]
      · rw [bwWrite_eq_spill_direct b io h p he h2 h3 h4 h5]
        have hw2 : (bufFlush ⟨b.pending ++ p.take (b.cap - b.pending.length),
            b.cap, false⟩ io h).2.1.world = [] := by rw [hbf]
        rw [fileWrite_nilWorld _ h _ hw2]
        refine ⟨rfl, ?_, rfl, rfl⟩
        simp only [List.length_drop]
        omega

/-! ### Rotation lemmas for the size-bounded rotator -/

theorem doShift_get_active : ∀ (n : Nat) (fs : Fs FPath),
    fsGet (doShift n fs) FPath.active = fsGet fs FPath.active
  | 0, _ => rfl
  | 1, _ => rfl
  | (m + 2), fs => by
      show fsGet (doShift (m + 1)
        ((fsRename fs (FPath.backup (m + 1)) (FPath.backup (m + 2))).1))
        FPath.active = fsGet fs FPath.active
      rw [doShift_get_active (m + 1)]
      exact fsRename_get_other fs (by simp) (by simp)

theorem doShift_get_above : ∀ (n : Nat) (fs : Fs FPath) (i : Nat), n < i →
    fsGet (doShift n fs) (FPath.backup i) = fsGet fs (FPath.backup i)
  | 0, _, _, _ => rfl
  | 1, _, _, _ => rfl
  | (m + 2), fs, i, hi => by
      show fsGet (doShift (m + 1)
        ((fsRename fs (FPath.backup (m + 1)) (FPath.backup (m + 2))).1))
        (FPath.backup i) = fsGet fs (FPath.backup i)
      rw [doShift_get_above (m + 1) _ i (by omega)]
      refine fsRename_get_other fs ?_ ?_
      · simp only [ne_eq, FPath.backup.injEq]
        omega
      · simp only [ne_eq, FPath.backup.injEq]
        omega

theorem rotate_ok (w : RotatingFileWriter) (b : BufState) (d : List Byte)
    (hw : w.writer = some FPath.active) (hb : w.buffer = some b)
    (he : b.errFlag = false) (hd : fsGet w.io.fs FPath.active = some d)
    (hnil : w.io.world = []) :
    ∃ w', w.rotate = ROut.ret none w' (rotTrace w.backupCount) ∧
      w'.writer = some FPath.active ∧
      w'.buffer = some ⟨[], b.cap, false⟩ ∧
      w'.pos = 0 ∧
      w'.updated = w.updated ∧
      w'.updateChan = w.updateChan ∧
      w'.maxSize = w.maxSize ∧
      w'.backupCount = w.backupCount ∧
      w'.io.world = [] ∧
      fsGet w'.io.fs FPath.active = some [] ∧
      fsGet w'.io.fs (FPath.backup 1) = some (d ++ b.pending) ∧
      (∀ i, w.backupCount < i → 0 < w.backupCount →
        fsGet w'.io.fs (FPath.backup i) = fsGet w.io.fs (FPath.backup i)) := by
  have hbf := bufFlush_nilWorld b w.io FPath.active he hnil hd
  have hget1 : fsGet (fsSet w.io.fs FPath.active (d ++ b.pending))
      FPath.active = some (d ++ b.pending) := fsGet_fsSet_self _ _ _
  have hget3 : fsGet (doShift w.backupCount
      (fsSet w.io.fs FPath.active (d ++ b.pending))) FPath.active =
      some (d ++ b.pending) := by
    rw [doShift_get_active]
    exact hget1
  have hget4 : fsGet (fsDel (doShift w.backupCount
      (fsSet w.io.fs FPath.active (d ++ b.pending))) FPath.active)
      FPath.active = none := fsGet_fsDel_self _ _
  refine ⟨{ w with
    writer := some FPath.active
    buffer := some ⟨[], b.cap, false⟩
    pos := 0
    io := ⟨fsOpenApp (fsSet (fsDel (doShift w.backupCount
      (fsSet w.io.fs FPath.active (d ++ b.pending))) FPath.active)
      (FPath.backup 1) (d ++ b.pending)) FPath.active, []⟩ },
    ?_, rfl, rfl, rfl, rfl, rfl, rfl, rfl, rfl, ?_, ?_, ?_⟩
  · simp only [RotatingFileWriter.rotate, hw, hb, hbf, wNext, rotTrace]
    simp only [fsRename, hget3]
    simp
  · simp only [fsOpenApp]
    rw [fsGet_fsSet_ne _ _ (by simp), hget4]
    exact fsGet_fsSet_self _ _ _
  · rw [fsGet_fsOpenApp_ne _ (by simp)]
    exact fsGet_fsSet_self _ _ _
  · intro i hi hpos
    rw [fsGet_fsOpenApp_ne _ (by simp)]
    rw [fsGet_fsSet_ne _ _ (by simp only [ne_eq, FPath.backup.injEq]; omega)]
    rw [fsGet_fsDel_ne _ (by simp)]
    rw [doShift_get_above _ _ i hi]
    rw [fsGet_fsSet_ne _ _ (by simp)]

theorem flLen_fsAppend [DecidableEq α] (fs : Fs α) (h : α) (x : List Byte) :
    flLen (fsAppend fs h x) h = flLen fs h + x.length := by
  unfold flLen fsAppend
  cases hg : fsGet fs h with
  | none => simp [hg, fsGet_fsSet_self]
  | some e => simp [hg, fsGet_fsSet_self]

theorem fileWrite_flLen [DecidableEq α] (io : FIo α) (h : α) (p : List Byte) :
    flLen (fileWrite io h p).2.2.fs h = flLen io.fs h + (fileWrite io h p).1 := by
  obtain ⟨fs, wld⟩ := io
  cases wld with
  | nil => simp [fileWrite, wNext, flLen_fsAppend]
  | cons r t =>
      cases r with
      | ok => simp [fileWrite, wNext, flLen_fsAppend]
      | fail => simp [fileWrite, wNext]
      | part n =>
          simp only [fileWrite, wNext, flLen_fsAppend, List.length_take]
          omega

theorem bufFlush_flLen [DecidableEq α] (b : BufState) (io : FIo α) (h : α) :
    flLen (bufFlush b io h).2.1.fs h + (bufFlush b io h).1.pending.length =
      flLen io.fs h + b.pending.length := by
  obtain ⟨pend, cap, err⟩ := b
  unfold bufFlush
  cases err with
  | true => rfl
  | false =>
      by_cases hp : pend.isEmpty
      · simp [hp]
      · by_cases hf : (fileWrite io h pend).2.1
        · have hfl := fileWrite_flLen io h pend
          have hle := fileWrite_le io h pend
          simp only [hp, hf, if_true, if_false, Bool.false_eq_true]
          simp only [List.length_drop, hfl]
          omega
        · have hfl := fileWrite_flLen io h pend
          have hok := fileWrite_ok io h pend (by simpa using hf)
          simp only [hp, hf, if_true, if_false, Bool.false_eq_true]
          simp [hfl, hok]

theorem bwWrite_flLen [DecidableEq α] (b : BufState) (io : FIo α) (h : α)
    (p : List Byte) :
    flLen (bwWrite b io h p).2.2.2.fs h +
      (bwWrite b io h p).2.2.1.pending.length =
      flLen io.fs h + b.pending.length + (bwWrite b io h p).1 := by
  by_cases h1 : b.errFlag = true
  · rw [bwWrite_eq_err b io h p h1]
    simp
  · rw [Bool.not_eq_true] at h1
    by_cases h2 : p.length ≤ b.cap - b.pending.length
    · rw [bwWrite_eq_fit b io h p h1 h2]
      simp only [List.length_append]
      omega
    · by_cases h3 : b.pending.length = 0
      · rw [bwWrite_eq_direct b io h p h1 h2 h3]
        have := fileWrite_flLen io h p
        simp [this, h3]
      · by_cases h4 : (bufFlush ⟨b.pending ++ p.take (b.cap - b.pending.length),
          b.cap, false⟩ io h).2.2 = true
        · rw [bwWrite_eq_spill_err b io h p h1 h2 h3 h4]
          have := bufFlush_flLen
            ⟨b.pending ++ p.take (b.cap - b.pending.length), b.cap, false⟩ io h
          simp only [List.length_append, List.length_take] at this
          show flLen (bufFlush ⟨b.pending ++ p.take (b.cap - b.pending.length),
            b.cap, false⟩ io h).2.1.fs h +
            (bufFlush ⟨b.pending ++ p.take (b.cap - b.pending.length),
              b.cap, false⟩ io h).1.pending.length =
            flLen io.fs h + b.pending.length + (b.cap - b.pending.length)
          omega
        · rw [Bool.not_eq_true] at h4
          have hbf := bufFlush_flLen
            ⟨b.pending ++ p.take (b.cap - b.pending.length), b.cap, false⟩ io h
          have hfp : (bufFlush ⟨b.pending ++ p.take (b.cap - b.pending.length),
              b.cap, false⟩ io h).1.pending = [] :=
            bufFlush_ok_pending _ io h rfl h4
          rw [hfp] at hbf
          simp only [List.length_append, List.length_take, List.length_nil,
            Nat.add_zero] at hbf
          by_cases h5 : (p.drop (b.cap - b.pending.length)).length ≤ b.cap
          · rw [bwWrite_eq_spill_fit b io h p h1 h2 h3 h4 h5]
            simp only [List.length_drop]
            omega
          · rw [bwWrite_eq_spill_direct b io h p h1 h2 h3 h4 h5]
            have hfl := fileWrite_flLen
              (bufFlush ⟨b.pending ++ p.take (b.cap - b.pending.length),
                b.cap, false⟩ io h).2.1 h (p.drop (b.cap - b.pending.length))
            simp only [List.length_nil, Nat.add_zero, hfl, hbf]
            omega

theorem fsRename_success [DecidableEq α] (fs : Fs α) (s t : α)
    (h : (fsRename fs s t).2 = true) :
    ∃ dd, fsGet fs s = some dd ∧
      (fsRename fs s t).1 = fsSet (fsDel fs s) t dd := by
  unfold fsRename at h ⊢
  cases hg : fsGet fs s with
  | none => rw [hg] at h; simp at h
  | some dd => exact ⟨dd, rfl, rfl⟩

theorem rotate_cases (w : RotatingFileWriter) (b : BufState)
    (hw : w.writer = some FPath.active) (hb : w.buffer = some b)
    {e : Option WErr} {w' : RotatingFileWriter} {tr : List FsOp}
    (hrot : w.rotate = ROut.ret e w' tr) :
    w'.maxSize = w.maxSize ∧ w'.backupCount = w.backupCount ∧
    w'.updated = w.updated ∧ w'.updateChan = w.updateChan ∧
    ((e = none ∧ w'.writer = some FPath.active ∧
        w'.buffer = some ⟨[], b.cap, false⟩ ∧ w'.pos = 0 ∧
        flLen w'.io.fs FPath.active = 0) ∨
      (e = some WErr.ioE ∧ w'.writer = some FPath.active ∧
        w'.buffer = some (bufFlush b w.io FPath.active).1 ∧
        w'.pos = w.pos ∧ w'.io = (bufFlush b w.io FPath.active).2.1) ∨
      (e = some WErr.ioE ∧ w'.writer = none ∧ w'.buffer = none)) := by
  unfold RotatingFileWriter.rotate at hrot
  simp only [hw, hb] at hrot
  by_cases hf : (bufFlush b w.io FPath.active).2.2 = true
  · rw [if_pos hf] at hrot
    injection hrot with he hst htr
    subst he
    subst hst
    exact ⟨rfl, rfl, rfl, rfl, Or.inr (Or.inl ⟨rfl, rfl, rfl, rfl, rfl⟩)⟩
  · rw [if_neg hf] at hrot
    by_cases hc : (wNext (bufFlush b w.io FPath.active).2.1.world).1 = IoRes.ok
    · rw [if_pos hc] at hrot
      by_cases hrn :
        ((wNext (wNext (bufFlush b w.io FPath.active).2.1.world).2).1 =
            IoRes.ok ∧
          (fsRename (doShift w.backupCount
            (bufFlush b w.io FPath.active).2.1.fs) FPath.active
            (FPath.backup 1)).2 = true)
      · rw [if_pos hrn] at hrot
        by_cases hop :
          (wNext (wNext (wNext
            (bufFlush b w.io FPath.active).2.1.world).2).2).1 = IoRes.ok
        · rw [if_pos hop] at hrot
          injection hrot with he hst htr
          subst he
          subst hst
          refine ⟨rfl, rfl, rfl, rfl, Or.inl ⟨rfl, rfl, rfl, rfl, ?_⟩⟩
          obtain ⟨dd, hdd, hren⟩ := fsRename_success _ _ _ hrn.2
          show flLen (fsOpenApp (fsRename (doShift w.backupCount
            (bufFlush b w.io FPath.active).2.1.fs) FPath.active
            (FPath.backup 1)).1 FPath.active) FPath.active = 0
          rw [hren]
          unfold flLen
          rw [fsGet_fsOpenApp_self]
          rw [fsGet_fsSet_ne _ _ (by simp), fsGet_fsDel_self]
          rfl
        · rw [if_neg hop] at hrot
          injection hrot with he hst htr
          subst he
          subst hst
          exact ⟨rfl, rfl, rfl, rfl, Or.inr (Or.inr ⟨rfl, rfl, rfl⟩)⟩
      · rw [if_neg hrn] at hrot
        injection hrot with he hst htr
        subst he
        subst hst
        exact ⟨rfl, rfl, rfl, rfl, Or.inr (Or.inr ⟨rfl, rfl, rfl⟩)⟩
    · rw [if_neg hc] at hrot
      injection hrot with he hst htr
      subst he
      subst hst
      exact ⟨rfl, rfl, rfl, rfl, Or.inr (Or.inr ⟨rfl, rfl, rfl⟩)⟩

theorem rotate_cases_of {e : Option WErr} {w : RotatingFileWriter}
    {w' : RotatingFileWriter} {tr : List FsOp}
    (hrot : w.rotate = ROut.ret e w' tr) (b : BufState)
    (hw : w.writer = some FPath.active) (hb : w.buffer = some b) :
    w'.maxSize = w.maxSize ∧ w'.backupCount = w.backupCount ∧
    w'.updated = w.updated ∧ w'.updateChan = w.updateChan ∧
    ((e = none ∧ w'.writer = some FPath.active ∧
        w'.buffer = some ⟨[], b.cap, false⟩ ∧ w'.pos = 0 ∧
        flLen w'.io.fs FPath.active = 0) ∨
      (e = some WErr.ioE ∧ w'.writer = some FPath.active ∧
        w'.buffer = some (bufFlush b w.io FPath.active).1 ∧
        w'.pos = w.pos ∧ w'.io = (bufFlush b w.io FPath.active).2.1) ∨
      (e = some WErr.ioE ∧ w'.writer = none ∧ w'.buffer = none)) :=
  rotate_cases w b hw hb hrot

theorem rotate_preserve (w : RotatingFileWriter) (hwf : RotWF w)
    (hpi : posInv w) {e : Option WErr} {w' : RotatingFileWriter}
    {tr : List FsOp} (hrot : w.rotate = ROut.ret e w' tr) :
    RotWF w' ∧ posInv w' := by
  rcases hwf with ⟨b, hw, hb, hcap⟩ | ⟨hw, hb⟩
  · obtain ⟨hms, hbc, hup, hch, hcase⟩ := rotate_cases w b hw hb hrot
    rcases hcase with ⟨he, hwr, hbu, hpos, hfl⟩ |
      ⟨he, hwr, hbu, hpos, hio⟩ | ⟨he, hwr, hbu⟩
    · refine ⟨Or.inl ⟨_, hwr, hbu, by simp⟩, ?_⟩
      intro _
      rw [hpos]
      unfold logicalActive
      rw [hbu, hfl]
      simp
    · refine ⟨Or.inl ⟨_, hwr, hbu, ?_⟩, ?_⟩
      · rw [bufFlush_cap]
        exact le_trans (bufFlush_pending_le b w.io FPath.active) hcap
      · intro _
        rw [hpos, hpi hw]
        unfold logicalActive
        rw [hbu, hio, hb, bufFlush_flLen]
    · refine ⟨Or.inr ⟨hwr, hbu⟩, ?_⟩
      intro hcon
      rw [hwr] at hcon
      cases hcon
  · unfold RotatingFileWriter.rotate at hrot
    simp only [hw] at hrot
    injection hrot with he hst htr
    subst he
    subst hst
    exact ⟨Or.inr ⟨hw, hb⟩, hpi⟩

theorem rotWriteSmall_preserve (w : RotatingFileWriter) (p : List Byte)
    (tr : List FsOp) (hwf : RotWF w) (hpi : posInv w)
    {n : Nat} {e : Option WErr} {w' : RotatingFileWriter} {tr' : List FsOp}
    (hW : rotWriteSmall w p tr = WROut.ret n e w' tr') :
    RotWF w' ∧ posInv w' := by
  rcases hwf with ⟨b, hw, hb, hcap⟩ | ⟨hw, hb⟩
  · unfold rotWriteSmall at hW
    simp only [hw, hb] at hW
    injection hW with hn he hst htr
    subst hst
    constructor
    · refine Or.inl ⟨_, rfl, rfl, ?_⟩
      rw [bwWrite_cap]
      exact bwWrite_pending_le b w.io FPath.active p hcap
    · intro _
      have hfl := bwWrite_flLen b w.io FPath.active p
      have hpw := hpi hw
      unfold logicalActive at hpw
      simp only [hb] at hpw
      show w.pos + (bwWrite b w.io FPath.active p).1 =
        flLen (bwWrite b w.io FPath.active p).2.2.2.fs FPath.active +
          (bwWrite b w.io FPath.active p).2.2.1.pending.length
      omega
  · unfold rotWriteSmall at hW
    simp only [hb] at hW
    exact WROut.noConfusion hW

theorem flushStep_preserve (w : RotatingFileWriter) (hwf : RotWF w)
    (hpi : posInv w) {n : Nat} {e : Option WErr} {w' : RotatingFileWriter}
    {tr' : List FsOp} (hW : w.flushStep = WROut.ret n e w' tr') :
    RotWF w' ∧ posInv w' := by
  rcases hwf with ⟨b, hw, hb, hcap⟩ | ⟨hw, hb⟩
  · unfold RotatingFileWriter.flushStep scheduleFlushStep at hW
    simp only [hw, hb] at hW
    injection hW with hn he hst htr
    subst hst
    constructor
    · refine Or.inl ⟨_, rfl, rfl, ?_⟩
      rw [bufFlush_cap]
      exact le_trans (bufFlush_pending_le b w.io FPath.active) hcap
    · intro _
      have hfl := bufFlush_flLen b w.io FPath.active
      have hpw := hpi hw
      unfold logicalActive at hpw
      simp only [hb] at hpw
      show w.pos =
        flLen (bufFlush b w.io FPath.active).2.1.fs FPath.active +
          (bufFlush b w.io FPath.active).1.pending.length
      omega
  · unfold RotatingFileWriter.flushStep scheduleFlushStep at hW
    simp only [hw] at hW
    injection hW with hn he hst htr
    subst hst
    exact ⟨Or.inr ⟨hw, hb⟩, hpi⟩

theorem write_preserve (w : RotatingFileWriter) (p : List Byte)
    (hwf : RotWF w) (hpi : posInv w)
    {n : Nat} {e : Option WErr} {w' : RotatingFileWriter} {tr : List FsOp}
    (hW : RotatingFileWriter.Write w p = WROut.ret n e w' tr) :
    RotWF w' ∧ (posInv w' ∨
      (w.maxSize ≤ p.length ∧ e = some WErr.ioE ∧
        w'.writer = some FPath.active ∧ w'.pos = 0 ∧
        logicalActive w' = p.length)) := by
  unfold RotatingFileWriter.Write at hW
  by_cases hov : w.maxSize ≤ p.length
  · rw [if_pos hov] at hW
    cases hrot : w.rotate with
    | panicked =>
        simp only [hrot] at hW
        exact WROut.noConfusion hW
    | ret e1 w1 tr1 =>
        cases e1 with
        | some e2 =>
            simp only [hrot] at hW
            injection hW with hn he hst htr
            subst hn he hst
            obtain ⟨hwf1, hpi1⟩ := rotate_preserve w hwf hpi hrot
            exact ⟨hwf1, Or.inl hpi1⟩
        | none =>
            simp only [hrot] at hW
            rcases hwf with ⟨b, hw, hb, hcap⟩ | ⟨hw, hb⟩
            · obtain ⟨hms, hbc, hup, hch, hcase⟩ :=
                rotate_cases w b hw hb hrot
              rcases hcase with ⟨_, hwr, hbu, hpos, hfl⟩ |
                ⟨habs, _⟩ | ⟨habs, _⟩
              · simp only [hbu, hwr] at hW
                by_cases hre :
                  (bwWrite ⟨[], b.cap, false⟩ w1.io FPath.active p).2.1 = true
                · rw [if_pos hre] at hW
                  injection hW with hn he hst htr
                  subst hn he hst
                  constructor
                  · refine Or.inl ⟨_, rfl, rfl, ?_⟩
                    rw [bwWrite_cap]
                    exact bwWrite_pending_le _ w1.io FPath.active p
                      (Nat.zero_le _)
                  · refine Or.inl ?_
                    intro _
                    have hfl2 := bwWrite_flLen ⟨[], b.cap, false⟩ w1.io
                      FPath.active p
                    show (bwWrite ⟨[], b.cap, false⟩ w1.io FPath.active p).1 =
                      flLen (bwWrite ⟨[], b.cap, false⟩ w1.io FPath.active
                        p).2.2.2.fs FPath.active +
                      (bwWrite ⟨[], b.cap, false⟩ w1.io FPath.active
                        p).2.2.1.pending.length
                    simp only [List.length_nil] at hfl2
                    omega
                · rw [if_neg hre] at hW
                  rw [Bool.not_eq_true] at hre
                  have hfull := bwWrite_ok_full ⟨[], b.cap, false⟩ w1.io
                    FPath.active p hre
                  split at hW
                  · exact WROut.noConfusion hW
                  · rename_i e3 w3 tr2 hrot2
                    injection hW with hn he hst htr
                    subst hn he hst
                    obtain ⟨hms2, hbc2, hup2, hch2, hcase2⟩ :=
                      rotate_cases_of hrot2 _ rfl rfl
                    have hfl2 := bwWrite_flLen ⟨[], b.cap, false⟩ w1.io
                      FPath.active p
                    simp only [List.length_nil] at hfl2
                    rcases hcase2 with ⟨he3, hwr3, hbu3, hpos3, hfl3⟩ |
                      ⟨he3, hwr3, hbu3, hpos3, hio3⟩ | ⟨he3, hwr3, hbu3⟩
                    · refine ⟨Or.inl ⟨_, hwr3, hbu3, by simp⟩, Or.inl ?_⟩
                      intro _
                      rw [hpos3]
                      unfold logicalActive
                      rw [hbu3, hfl3]
                      simp
                    · constructor
                      · refine Or.inl ⟨_, hwr3, hbu3, ?_⟩
                        rw [bufFlush_cap]
                        exact le_trans (bufFlush_pending_le _ _ _)
                          (by rw [bwWrite_cap]
                              exact bwWrite_pending_le ⟨[], b.cap, false⟩
                                w1.io FPath.active p (Nat.zero_le _))
                      · refine Or.inr ⟨hov, he3, hwr3, by rw [hpos3, hpos],
                          ?_⟩
                        have hbfl := bufFlush_flLen
                          (bwWrite ⟨[], b.cap, false⟩ w1.io FPath.active
                            p).2.2.1
                          (bwWrite ⟨[], b.cap, false⟩ w1.io FPath.active
                            p).2.2.2 FPath.active
                        unfold logicalActive
                        rw [hbu3, hio3]
                        show flLen (bufFlush
                            (bwWrite ⟨[], b.cap, false⟩ w1.io FPath.active
                              p).2.2.1
                            (bwWrite ⟨[], b.cap, false⟩ w1.io FPath.active
                              p).2.2.2 FPath.active).2.1.fs FPath.active +
                          (bufFlush
                            (bwWrite ⟨[], b.cap, false⟩ w1.io FPath.active
                              p).2.2.1
                            (bwWrite ⟨[], b.cap, false⟩ w1.io FPath.active
                              p).2.2.2 FPath.active).1.pending.length =
                            p.length
                        omega
                    · refine ⟨Or.inr ⟨hwr3, hbu3⟩, Or.inl ?_⟩
                      intro hcon
                      rw [hwr3] at hcon
                      cases hcon
              · cases habs
              · cases habs
            · unfold RotatingFileWriter.rotate at hrot
              simp only [hw] at hrot
              injection hrot with he1 hst1 htr1
              cases he1
  · rw [if_neg hov] at hW
    by_cases hth : w.maxSize < w.pos + p.length
    · rw [if_pos hth] at hW
      cases hrot : w.rotate with
      | panicked =>
          simp only [hrot] at hW
          exact WROut.noConfusion hW
      | ret e1 w1 tr1 =>
          cases e1 with
          | some e2 =>
              simp only [hrot] at hW
              injection hW with hn he hst htr
              subst hn he hst
              obtain ⟨hwf1, hpi1⟩ := rotate_preserve w hwf hpi hrot
              exact ⟨hwf1, Or.inl hpi1⟩
          | none =>
              simp only [hrot] at hW
              obtain ⟨hwf1, hpi1⟩ := rotate_preserve w hwf hpi hrot
              obtain ⟨hwf2, hpi2⟩ :=
                rotWriteSmall_preserve w1 p tr1 hwf1 hpi1 hW
              exact ⟨hwf2, Or.inl hpi2⟩
    · rw [if_neg hth] at hW
      obtain ⟨hwf2, hpi2⟩ := rotWriteSmall_preserve w p [] hwf hpi hW
      exact ⟨hwf2, Or.inl hpi2⟩

/-! ### Claim theorems -/

/-- C10: once `Close` has run on a `BufferedFileWriter` (writer and
buffer nil), a timer-driven flush in the background scheduler is a
no-op: the flush branch checks the writer for nil before clearing the
dirty flag or touching the buffer, so the state is returned unchanged
and no error is reported. -/
theorem claim_C10 {α : Type} [DecidableEq α] (w : BufferedFileWriter α)
    (hw : w.writer = none) : scheduleFlushStep w = WOut.ret 0 none w := by
  unfold scheduleFlushStep
  rw [hw]

/-- Witness for C10 at a concrete closed sink. -/
theorem claim_C10_witness :
    scheduleFlushStep
      (⟨none, none, false, 0, ⟨[("log", [1, 2])], []⟩⟩ :
        BufferedFileWriter String) =
      WOut.ret 0 none
        (⟨none, none, false, 0, ⟨[("log", [1, 2])], []⟩⟩ :
          BufferedFileWriter String) :=
  claim_C10 _ rfl

/-- C5: `BufferedFileWriter.Write` on an open writer returns the full
length of the record unless the buffer reports an error, and it queues a
wake signal on the scheduler channel exactly when this write flips the
dirty flag from clear to set; while the flag is already set no
additional signal is sent. -/
theorem claim_C5 {α : Type} [DecidableEq α] (w : BufferedFileWriter α)
    (b : BufState) (h : α) (p : List Byte)
    (hb : w.buffer = some b) (hw : w.writer = some h) :
    ∃ n err w', BufferedFileWriter.Write w p = WOut.ret n err w' ∧
      (err = none → n = p.length) ∧
      (w'.updateChan =
        if w.updated = false ∧ w'.updated = true then w.updateChan + 1
        else w.updateChan) ∧
      (w.updated = true → w'.updated = true ∧ w'.updateChan = w.updateChan) := by
  unfold BufferedFileWriter.Write
  rw [hb, hw]
  refine ⟨_, _, _, rfl, ?_, ?_, ?_⟩
  · intro he
    by_cases hr : (bwWrite b w.io h p).2.1 = true
    · simp [hr] at he
    · rw [Bool.not_eq_true] at hr
      exact bwWrite_ok_full b w.io h p hr
  · cases hu : w.updated with
    | true => simp [hu]
    | false =>
        by_cases hf : (decide (0 < (bwWrite b w.io h p).1) &&
          !(bwWrite b w.io h p).2.2.1.pending.isEmpty) = true
        · simp [hu, hf]
        · simp [hu, hf]
  · intro hu
    simp [hu]

/-- Witness for C5: a 2-byte record on a clean sink is fully accepted
and queues exactly one wake signal. -/
theorem claim_C5_witness :
    ∃ n err w',
      BufferedFileWriter.Write (mkBuffered "log" 8 [] []) [1, 2] =
        WOut.ret n err w' ∧
      (err = none → n = 2) ∧
      (w'.updateChan =
        if (mkBuffered "log" 8 [] []).updated = false ∧ w'.updated = true
        then (mkBuffered "log" 8 [] []).updateChan + 1
        else (mkBuffered "log" 8 [] []).updateChan) ∧
      ((mkBuffered "log" 8 [] []).updated = true →
        w'.updated = true ∧
        w'.updateChan = (mkBuffered "log" 8 [] []).updateChan) :=
  claim_C5 (mkBuffered "log" 8 [] []) ⟨[], 8, false⟩ "log" [1, 2] rfl rfl

/-- C3: the spec requires every `Write` after an unrecoverable rotation
failure (or after `Close`) to fail with `ClosedError`; the code only
does so on the paths that call `rotate` (record length at least
`maxSize`, or an overflowing position).  A small record skips the
rotation check and calls `Write` on the nil buffer: a nil dereference
(panic), not a `ClosedError`.  Concretely, with `maxSize = 5` and a
rotation that failed at the rename step: the handle is unset, a 5-byte
record gets `ClosedError`, but a 1-byte record panics. -/
theorem claim_C3 :
    ((mkRotating [] 8 5 2 [IoRes.ok, IoRes.fail]).rotate.errOf =
      some WErr.ioE) ∧
    (((mkRotating [] 8 5 2 [IoRes.ok, IoRes.fail]).rotate.stOr
      (mkRotating [] 8 5 2 [])).writer = none) ∧
    ((RotatingFileWriter.Write
      ((mkRotating [] 8 5 2 [IoRes.ok, IoRes.fail]).rotate.stOr
        (mkRotating [] 8 5 2 [])) [9]).isPanic = true) ∧
    ((RotatingFileWriter.Write
      ((mkRotating [] 8 5 2 [IoRes.ok, IoRes.fail]).rotate.stOr
        (mkRotating [] 8 5 2 [])) [9, 9, 9, 9, 9]).errOf =
      some WErr.closedE) := by
  decide

theorem bfwWrite_nilWorld {α : Type} [DecidableEq α]
    (w : BufferedFileWriter α) (b : BufState) (d : List Byte) (h : α)
    (p : List Byte) (hw : w.writer = some h) (hb : w.buffer = some b)
    (he : b.errFlag = false) (hworld : w.io.world = [])
    (hd : fsGet w.io.fs h = some d) :
    ∃ w2 b2 d2, BufferedFileWriter.Write w p = WOut.ret p.length none w2 ∧
      w2.writer = some h ∧ w2.buffer = some b2 ∧ b2.errFlag = false ∧
      w2.io.world = [] ∧ fsGet w2.io.fs h = some d2 ∧
      d2 ++ b2.pending = d ++ b.pending ++ p := by
  obtain ⟨hok, hn, hw2, he2⟩ := bwWrite_nilWorld b w.io h p he hworld hd
  obtain ⟨d2, hd2, hcat⟩ := bwWrite_content b w.io h p hd
  rw [hn, List.take_length] at hcat
  cases hWeq : BufferedFileWriter.Write w p with
  | panicked =>
      exfalso
      have h2 := hWeq
      unfold BufferedFileWriter.Write at h2
      rw [hb, hw] at h2
      exact WOut.noConfusion h2
  | ret n e w2 =>
      have h2 := hWeq
      unfold BufferedFileWriter.Write at h2
      rw [hb, hw] at h2
      injection h2 with hn' he' hst'
      have hne : n = p.length := hn'.symm.trans hn
      have hee : e = none := by
        rw [← he', hok]
        simp
      subst hne hee
      refine ⟨w2, (bwWrite b w.io h p).2.2.1, d2, rfl, ?_, ?_, he2, ?_, ?_,
        hcat⟩
      · rw [← hst']
      · rw [← hst']
      · rw [← hst']
        exact hw2
      · rw [← hst']
        exact hd2

theorem runWrites_nilWorld {α : Type} [DecidableEq α] (h : α) :
    ∀ (ps : List (List Byte)) (w : BufferedFileWriter α) (b : BufState)
      (d : List Byte), w.writer = some h → w.buffer = some b →
      b.errFlag = false → w.io.world = [] → fsGet w.io.fs h = some d →
      ∃ w' b' d', runWrites w ps = some w' ∧ w'.writer = some h ∧
        w'.buffer = some b' ∧ b'.errFlag = false ∧ w'.io.world = [] ∧
        fsGet w'.io.fs h = some d' ∧
        d' ++ b'.pending = d ++ b.pending ++ ps.flatten
  | [], w, b, d, hw, hb, he, hworld, hd =>
      ⟨w, b, d, by simp [runWrites], hw, hb, he, hworld, hd, by simp⟩
  | p :: t, w, b, d, hw, hb, he, hworld, hd => by
      obtain ⟨w2, b2, d2, hWeq, hw2, hb2, he2, hworld2, hd2, hcat⟩ :=
        bfwWrite_nilWorld w b d h p hw hb he hworld hd
      have hstep : runWrites w (p :: t) = runWrites w2 t := by
        show (match BufferedFileWriter.Write w p with
          | WOut.ret _ _ w' => runWrites w' t
          | WOut.panicked => none) = _
        rw [hWeq]
      rw [hstep]
      obtain ⟨w', b', d', hrun, hw', hb', he', hworld', hd', hcat'⟩ :=
        runWrites_nilWorld h t w2 b2 d2 hw2 hb2 he2 hworld2 hd2
      refine ⟨w', b', d', hrun, hw', hb', he', hworld', hd', ?_⟩
      rw [hcat', hcat]
      simp [List.append_assoc]

/-- C9: concurrent callers are serialized by the sink's mutex, so every
execution is some interleaving order of the individual `Write` calls;
the list `ps` below ranges over all such serialization orders.  For
every order, with all I/O succeeding, each call is accepted in full, and
after `Close` the file contains exactly the initial bytes followed by
the records concatenated whole in the serialized order: each record is
contiguous (never split or intermixed with another call's bytes) and
every byte appears exactly once; only the order across callers varies
with the interleaving. -/
theorem claim_C9 (ps : List (List Byte)) (path : String) (cap : Nat)
    (f0 : List Byte) :
    ∃ w' e wc, runWrites (mkBuffered path cap f0 []) ps = some w' ∧
      BufferedFileWriter.Close w' = WOut.ret 0 e wc ∧ e = none ∧
      fsGet wc.io.fs path = some (f0 ++ ps.flatten) := by
  obtain ⟨w', b', d', hrun, hw', hb', he', hworld', hd', hcat'⟩ :=
    runWrites_nilWorld path ps (mkBuffered path cap f0 []) ⟨[], cap, false⟩
      f0 rfl rfl rfl rfl (by simp [mkBuffered, fsGet])
  have hbf := bufFlush_nilWorld b' w'.io path he' hworld' hd'
  have hclose : BufferedFileWriter.Close w' = WOut.ret 0 none
      ⟨none, none, w'.updated, w'.updateChan,
        ⟨fsSet w'.io.fs path (d' ++ b'.pending), []⟩⟩ := by
    unfold BufferedFileWriter.Close
    simp only [hb', hw', hbf, wNext]
    simp
  refine ⟨w', none, _, hrun, hclose, rfl, ?_⟩
  show fsGet (fsSet w'.io.fs path (d' ++ b'.pending)) path =
    some (f0 ++ ps.flatten)
  rw [fsGet_fsSet_self, hcat']
  simp

/-- C4 (amended): the position counter equals the active file's true
byte length (bytes on disk plus bytes still buffered for it): it starts
as the pre-existing file's size at construction, and the invariant is
preserved by every scheduler flush, every rotation, and every `Write` —
except that a `Write` of an oversized record (length at least `maxSize`)
whose trailing rotation fails at its flush step leaves the writer open
with `pos = 0` while the record's bytes still count towards the file,
i.e. the true length is `len(p)`. -/
theorem claim_C4_amended :
    (∀ (d : List Byte) (cap ms bc : Nat) (wld : World),
      posInv (mkRotating d cap ms bc wld)) ∧
    (∀ (w : RotatingFileWriter), RotWF w → posInv w →
      ∀ (n : Nat) (e : Option WErr) (w' : RotatingFileWriter)
        (tr : List FsOp), w.flushStep = WROut.ret n e w' tr → posInv w') ∧
    (∀ (w : RotatingFileWriter), RotWF w → posInv w →
      ∀ (e : Option WErr) (w' : RotatingFileWriter) (tr : List FsOp),
        w.rotate = ROut.ret e w' tr → posInv w') ∧
    (∀ (w : RotatingFileWriter) (p : List Byte), RotWF w → posInv w →
      ∀ (n : Nat) (e : Option WErr) (w' : RotatingFileWriter)
        (tr : List FsOp), RotatingFileWriter.Write w p = WROut.ret n e w' tr →
        posInv w' ∨ (w.maxSize ≤ p.length ∧ e = some WErr.ioE ∧
          w'.writer = some FPath.active ∧ w'.pos = 0 ∧
          logicalActive w' = p.length)) := by
  refine ⟨?_, ?_, ?_, ?_⟩
  · intro d cap ms bc wld _
    show d.length = _
    unfold logicalActive flLen mkRotating
    simp [fsGet]
  · intro w hwf hpi n e w' tr hW
    exact (flushStep_preserve w hwf hpi hW).2
  · intro w hwf hpi e w' tr hrot
    exact (rotate_preserve w hwf hpi hrot).2
  · intro w p hwf hpi n e w' tr hW
    exact (write_preserve w p hwf hpi hW).2

/-- Counterexample to C4 as stated: a fresh rotator with `maxSize = 2`
satisfies the invariant; writing the oversized record `[5, 5]` while the
trailing rotation's flush fails (script: close ok, rename ok, reopen ok,
flush of the new file fails) leaves the writer open with `pos = 0` while
the active file's true length is 2 — the invariant is not preserved by
this `Write`. -/
theorem claim_C4_counterexample :
    ((mkRotating [] 10 2 2 [IoRes.ok, IoRes.ok, IoRes.ok, IoRes.fail]).pos =
      logicalActive
        (mkRotating [] 10 2 2 [IoRes.ok, IoRes.ok, IoRes.ok, IoRes.fail])) ∧
    (((RotatingFileWriter.Write
        (mkRotating [] 10 2 2 [IoRes.ok, IoRes.ok, IoRes.ok, IoRes.fail])
        [5, 5]).stOr (mkRotating [] 10 2 2 [])).writer =
      some FPath.active) ∧
    ¬ (((RotatingFileWriter.Write
        (mkRotating [] 10 2 2 [IoRes.ok, IoRes.ok, IoRes.ok, IoRes.fail])
        [5, 5]).stOr (mkRotating [] 10 2 2 [])).pos =
      logicalActive ((RotatingFileWriter.Write
        (mkRotating [] 10 2 2 [IoRes.ok, IoRes.ok, IoRes.ok, IoRes.fail])
        [5, 5]).stOr (mkRotating [] 10 2 2 []))) := by
  decide

/-- Witness for the amended C4 at a concrete in-bounds write. -/
theorem claim_C4_witness :
    posInv ((RotatingFileWriter.Write (mkRotating [1] 4 5 1 []) [2]).stOr
      (mkRotating [1] 4 5 1 [])) ∨
    ((mkRotating [1] 4 5 1 []).maxSize ≤ ([2] : List Byte).length ∧
      (RotatingFileWriter.Write (mkRotating [1] 4 5 1 []) [2]).errOf =
        some WErr.ioE ∧
      ((RotatingFileWriter.Write (mkRotating [1] 4 5 1 []) [2]).stOr
        (mkRotating [1] 4 5 1 [])).writer = some FPath.active ∧
      ((RotatingFileWriter.Write (mkRotating [1] 4 5 1 []) [2]).stOr
        (mkRotating [1] 4 5 1 [])).pos = 0 ∧
      logicalActive ((RotatingFileWriter.Write (mkRotating [1] 4 5 1 [])
        [2]).stOr (mkRotating [1] 4 5 1 [])) = ([2] : List Byte).length) := by
  have hW : RotatingFileWriter.Write (mkRotating [1] 4 5 1 []) [2] =
      WROut.ret
        ((RotatingFileWriter.Write (mkRotating [1] 4 5 1 []) [2]).count)
        ((RotatingFileWriter.Write (mkRotating [1] 4 5 1 []) [2]).errOf)
        ((RotatingFileWriter.Write (mkRotating [1] 4 5 1 []) [2]).stOr
          (mkRotating [1] 4 5 1 []))
        ((RotatingFileWriter.Write (mkRotating [1] 4 5 1 []) [2]).trOf) := by
    decide
  have hres := claim_C4_amended.2.2.2 (mkRotating [1] 4 5 1 []) [2]
    (Or.inl ⟨⟨[], 4, false⟩, rfl, rfl, by decide⟩)
    (fun _ => by decide) _ _ _ _ hW
  rcases hres with hres | ⟨h1, h2, h3, h4, h5⟩
  · exact Or.inl hres
  · exact Or.inr ⟨h1, by rw [← h2], h3, h4, h5⟩

/-- C2: with every I/O operation succeeding, a rotation of an open
`RotatingFileWriter` performs exactly, in order: buffer flush, close,
the backup shift `path.(i-1) → path.i` for `i = backupCount down to 2`
(renames whose results are ignored, so missing sources are tolerated —
no hypothesis about the backups is needed), the rename of the active
path to `path.1`, and the reopen of an empty active file, with the
position counter reset to 0; the old content (disk plus buffered bytes)
ends up whole in `path.1`, and no file above index `backupCount` is ever
touched, so at most `backupCount` numbered backups exist. -/
theorem claim_C2 (w : RotatingFileWriter) (b : BufState) (d : List Byte)
    (hw : w.writer = some FPath.active) (hb : w.buffer = some b)
    (he : b.errFlag = false) (hd : fsGet w.io.fs FPath.active = some d)
    (hnil : w.io.world = []) (hbc : 0 < w.backupCount) :
    ∃ w', w.rotate = ROut.ret none w' (rotTrace w.backupCount) ∧
      rotTrace w.backupCount =
        [FsOp.flushOp, FsOp.closeOp] ++ shiftOps w.backupCount ++
          [FsOp.renameOp FPath.active (FPath.backup 1),
            FsOp.openOp FPath.active] ∧
      (∀ m, shiftOps (m + 2) =
        FsOp.renameOp (FPath.backup (m + 1)) (FPath.backup (m + 2)) ::
          shiftOps (m + 1)) ∧
      w'.pos = 0 ∧ w'.writer = some FPath.active ∧
      fsGet w'.io.fs FPath.active = some [] ∧
      fsGet w'.io.fs (FPath.backup 1) = some (d ++ b.pending) ∧
      (∀ i, w.backupCount < i →
        fsGet w'.io.fs (FPath.backup i) = fsGet w.io.fs (FPath.backup i)) := by
  obtain ⟨w', hrot, hw', hb', hpos', hup', hch', hms', hbc', hnil', hact',
    hbk', habove'⟩ := rotate_ok w b d hw hb he hd hnil
  exact ⟨w', hrot, rfl, fun m => rfl, hpos', hw', hact', hbk',
    fun i hi => habove' i hi hbc⟩

/-- Witness for C2 at a concrete rotator with one existing backup. -/
theorem claim_C2_witness :
    ∃ w', ({ mkRotating [3] 4 6 2 [] with
        io := ⟨[(FPath.active, [3]), (FPath.backup 5, [9])], []⟩ } :
          RotatingFileWriter).rotate =
        ROut.ret none w' (rotTrace 2) ∧
      rotTrace 2 =
        [FsOp.flushOp, FsOp.closeOp] ++ shiftOps 2 ++
          [FsOp.renameOp FPath.active (FPath.backup 1),
            FsOp.openOp FPath.active] ∧
      (∀ m, shiftOps (m + 2) =
        FsOp.renameOp (FPath.backup (m + 1)) (FPath.backup (m + 2)) ::
          shiftOps (m + 1)) ∧
      w'.pos = 0 ∧ w'.writer = some FPath.active ∧
      fsGet w'.io.fs FPath.active = some [] ∧
      fsGet w'.io.fs (FPath.backup 1) = some ([3] ++ []) ∧
      (∀ i, 2 < i → fsGet w'.io.fs (FPath.backup i) =
        fsGet [(FPath.active, ([3] : List Byte)),
          (FPath.backup 5, [9])] (FPath.backup i)) :=
  claim_C2 _ ⟨[], 4, false⟩ [3] rfl rfl rfl (by decide) rfl (by decide)

theorem rotate_ne_panic (w : RotatingFileWriter) (b : BufState)
    (hw : w.writer = some FPath.active) (hb : w.buffer = some b) :
    ¬ w.rotate = ROut.panicked := by
  intro heq
  unfold RotatingFileWriter.rotate at heq
  simp only [hw, hb] at heq
  split at heq
  · exact ROut.noConfusion heq
  · split at heq
    · split at heq
      · split at heq
        · exact ROut.noConfusion heq
        · exact ROut.noConfusion heq
      · exact ROut.noConfusion heq
    · exact ROut.noConfusion heq

theorem rotate_ok_of {e : Option WErr} {w w' : RotatingFileWriter}
    {tr : List FsOp} (hrot : w.rotate = ROut.ret e w' tr) (b : BufState)
    (d : List Byte) (hw : w.writer = some FPath.active)
    (hb : w.buffer = some b) (he : b.errFlag = false)
    (hd : fsGet w.io.fs FPath.active = some d) (hnil : w.io.world = []) :
    e = none ∧ tr = rotTrace w.backupCount ∧
      w'.writer = some FPath.active ∧
      w'.buffer = some ⟨[], b.cap, false⟩ ∧
      w'.pos = 0 ∧
      w'.updated = w.updated ∧
      w'.updateChan = w.updateChan ∧
      w'.maxSize = w.maxSize ∧
      w'.backupCount = w.backupCount ∧
      w'.io.world = [] ∧
      fsGet w'.io.fs FPath.active = some [] ∧
      fsGet w'.io.fs (FPath.backup 1) = some (d ++ b.pending) ∧
      (∀ i, w.backupCount < i → 0 < w.backupCount →
        fsGet w'.io.fs (FPath.backup i) = fsGet w.io.fs (FPath.backup i)) := by
  obtain ⟨w2, hrot2, hrest⟩ := rotate_ok w b d hw hb he hd hnil
  rw [hrot] at hrot2
  injection hrot2 with he2 hst2 htr2
  subst he2
  subst hst2
  exact ⟨rfl, htr2, hrest⟩

/-- C1: on an open rotator with all I/O succeeding and `maxSize > 0`:
a record at least `maxSize` long is written by rotating, writing the
record whole, and rotating again, so it ends up alone in backup
`path.1` with the active file empty; a shorter record that would push
the position past `maxSize` triggers exactly one rotation and is then
written whole to the fresh file; any other record is appended directly
with no rotation and no backup touched. -/
theorem claim_C1 (w : RotatingFileWriter) (p : List Byte) (b : BufState)
    (d : List Byte) (hw : w.writer = some FPath.active)
    (hb : w.buffer = some b) (he : b.errFlag = false)
    (hd : fsGet w.io.fs FPath.active = some d) (hnil : w.io.world = []) :
    (w.maxSize ≤ p.length →
      ∃ w', RotatingFileWriter.Write w p =
          WROut.ret p.length none w'
            (rotTrace w.backupCount ++ [FsOp.bufWrite p.length] ++
              rotTrace w.backupCount) ∧
        fsGet w'.io.fs (FPath.backup 1) = some p ∧
        fsGet w'.io.fs FPath.active = some [] ∧
        w'.buffer = some ⟨[], b.cap, false⟩ ∧ w'.pos = 0) ∧
    (p.length < w.maxSize → w.maxSize < w.pos + p.length →
      ∃ w', RotatingFileWriter.Write w p =
          WROut.ret p.length none w'
            (rotTrace w.backupCount ++ [FsOp.bufWrite p.length]) ∧
        fsGet w'.io.fs (FPath.backup 1) = some (d ++ b.pending) ∧
        logicalActive w' = p.length ∧
        w'.writer = some FPath.active ∧ w'.pos = p.length) ∧
    (p.length < w.maxSize → w.pos + p.length ≤ w.maxSize →
      ∃ w', RotatingFileWriter.Write w p =
          WROut.ret p.length none w' [FsOp.bufWrite p.length] ∧
        logicalActive w' = d.length + b.pending.length + p.length ∧
        w'.writer = some FPath.active ∧ w'.pos = w.pos + p.length ∧
        (∀ i, fsGet w'.io.fs (FPath.backup i) =
          fsGet w.io.fs (FPath.backup i))) := by
  refine ⟨?_, ?_, ?_⟩
  · intro hov
    obtain ⟨w1, hrot1, hw1, hb1, hpos1, hup1, hch1, hms1, hbc1, hnil1,
      hact1, hbk1, habove1⟩ := rotate_ok w b d hw hb he hd hnil
    obtain ⟨hok2, hn2, hwd2, hef2⟩ :=
      bwWrite_nilWorld ⟨[], b.cap, false⟩ w1.io FPath.active p rfl hnil1
        hact1
    obtain ⟨d2, hd2, hcat2⟩ :=
      bwWrite_content ⟨[], b.cap, false⟩ w1.io FPath.active p hact1
    rw [hn2, List.take_length] at hcat2
    simp only [List.nil_append] at hcat2
    cases hWeq : RotatingFileWriter.Write w p with
    | panicked =>
        exfalso
        have h2 := hWeq
        simp only [RotatingFileWriter.Write] at h2
        rw [if_pos hov] at h2
        simp only [hrot1, hb1, hw1] at h2
        simp only [hok2, Bool.false_eq_true, if_false] at h2
        split at h2
        · rename_i hpan
          exact rotate_ne_panic _
            (bwWrite ⟨[], b.cap, false⟩ w1.io FPath.active p).2.2.1 rfl rfl
            hpan
        · exact WROut.noConfusion h2
    | ret n e w2 tr =>
        have h2 := hWeq
        simp only [RotatingFileWriter.Write] at h2
        rw [if_pos hov] at h2
        simp only [hrot1, hb1, hw1] at h2
        simp only [hok2, Bool.false_eq_true, if_false] at h2
        split at h2
        · rename_i hpan
          exact absurd hpan (rotate_ne_panic _
            (bwWrite ⟨[], b.cap, false⟩ w1.io FPath.active p).2.2.1 rfl rfl)
        · rename_i e3 w3 tr2 hrot2
          obtain ⟨he3, htr2, hw3, hb3, hpos3, hup3, hch3, hms3, hbc3, hnil3,
            hact3, hbk3, habove3⟩ := rotate_ok_of hrot2
            (bwWrite ⟨[], b.cap, false⟩ w1.io FPath.active p).2.2.1 d2 rfl
            rfl hef2 hd2 hwd2
          subst he3
          injection h2 with hn' he' hst' htr'
          refine ⟨w2, ?_, ?_, ?_, ?_, ?_⟩
          · rw [← hn', hn2, ← he', ← htr', htr2, hn2]
            have hbcc : w1.backupCount = w.backupCount := hbc1
            show WROut.ret p.length none w2
                (rotTrace w.backupCount ++ [FsOp.bufWrite p.length] ++
                  rotTrace w1.backupCount) = _
            rw [hbcc]
          · rw [← hst', hbk3, hcat2]
          · rw [← hst']
            exact hact3
          · rw [← hst', hb3,
              bwWrite_cap ⟨[], b.cap, false⟩ w1.io FPath.active p]
          · rw [← hst']
            exact hpos3
  · intro hlt hth
    obtain ⟨w1, hrot1, hw1, hb1, hpos1, hup1, hch1, hms1, hbc1, hnil1,
      hact1, hbk1, habove1⟩ := rotate_ok w b d hw hb he hd hnil
    obtain ⟨hok2, hn2, hwd2, hef2⟩ :=
      bwWrite_nilWorld ⟨[], b.cap, false⟩ w1.io FPath.active p rfl hnil1
        hact1
    obtain ⟨d2, hd2, hcat2⟩ :=
      bwWrite_content ⟨[], b.cap, false⟩ w1.io FPath.active p hact1
    rw [hn2, List.take_length] at hcat2
    simp only [List.nil_append] at hcat2
    cases hWeq : RotatingFileWriter.Write w p with
    | panicked =>
        exfalso
        have h2 := hWeq
        simp only [RotatingFileWriter.Write] at h2
        rw [if_neg (by omega), if_pos hth] at h2
        simp only [hrot1] at h2
        unfold rotWriteSmall at h2
        simp only [hb1, hw1] at h2
        exact WROut.noConfusion h2
    | ret n e w2 tr =>
        have h2 := hWeq
        simp only [RotatingFileWriter.Write] at h2
        rw [if_neg (by omega), if_pos hth] at h2
        simp only [hrot1] at h2
        unfold rotWriteSmall at h2
        simp only [hb1, hw1] at h2
        injection h2 with hn' he' hst' htr'
        refine ⟨w2, ?_, ?_, ?_, ?_, ?_⟩
        · rw [← hn', hn2, ← he', ← htr', hn2]
          simp only [hok2, Bool.false_eq_true, if_false]
        · rw [← hst']
          show fsGet (bwWrite ⟨[], b.cap, false⟩ w1.io FPath.active
            p).2.2.2.fs (FPath.backup 1) = some (d ++ b.pending)
          rw [bwWrite_ne _ w1.io p (by simp)]
          exact hbk1
        · rw [← hst']
          show flLen (bwWrite ⟨[], b.cap, false⟩ w1.io FPath.active
              p).2.2.2.fs FPath.active +
            (bwWrite ⟨[], b.cap, false⟩ w1.io FPath.active
              p).2.2.1.pending.length = p.length
          have hlen := congrArg List.length hcat2
          simp only [List.length_append] at hlen
          unfold flLen
          rw [hd2]
          simp only [Option.getD_some]
          omega
        · rw [← hst']
        · rw [← hst']
          show w1.pos + (bwWrite ⟨[], b.cap, false⟩ w1.io FPath.active
            p).1 = p.length
          rw [hpos1, hn2]
          simp
  · intro hlt hle
    obtain ⟨hok2, hn2, hwd2, hef2⟩ :=
      bwWrite_nilWorld b w.io FPath.active p he hnil hd
    obtain ⟨d2, hd2, hcat2⟩ := bwWrite_content b w.io FPath.active p hd
    rw [hn2, List.take_length] at hcat2
    cases hWeq : RotatingFileWriter.Write w p with
    | panicked =>
        exfalso
        have h2 := hWeq
        simp only [RotatingFileWriter.Write] at h2
        rw [if_neg (by omega), if_neg (by omega)] at h2
        unfold rotWriteSmall at h2
        simp only [hb, hw] at h2
        exact WROut.noConfusion h2
    | ret n e w2 tr =>
        have h2 := hWeq
        simp only [RotatingFileWriter.Write] at h2
        rw [if_neg (by omega), if_neg (by omega)] at h2
        unfold rotWriteSmall at h2
        simp only [hb, hw] at h2
        injection h2 with hn' he' hst' htr'
        refine ⟨w2, ?_, ?_, ?_, ?_, ?_⟩
        · rw [← hn', hn2, ← he', ← htr', hn2]
          simp only [hok2, Bool.false_eq_true, if_false, List.nil_append]
        · rw [← hst']
          show flLen (bwWrite b w.io FPath.active p).2.2.2.fs FPath.active +
            (bwWrite b w.io FPath.active p).2.2.1.pending.length =
            d.length + b.pending.length + p.length
          have hlen := congrArg List.length hcat2
          simp only [List.length_append] at hlen
          unfold flLen
          rw [hd2]
          simp only [Option.getD_some]
          omega
        · rw [← hst']
        · rw [← hst']
          show w.pos + (bwWrite b w.io FPath.active p).1 =
            w.pos + p.length
          rw [hn2]
        · intro i
          rw [← hst']
          show fsGet (bwWrite b w.io FPath.active p).2.2.2.fs
            (FPath.backup i) = fsGet w.io.fs (FPath.backup i)
          exact bwWrite_ne b w.io p (by simp)

/-- Witness for C1: a 2-byte record on a fresh rotator with
`maxSize = 2` lands whole in backup `.1` with the active file empty. -/
theorem claim_C1_witness :
    ∃ w', RotatingFileWriter.Write (mkRotating [] 4 2 2 []) [7, 7] =
        WROut.ret 2 none w'
          (rotTrace 2 ++ [FsOp.bufWrite 2] ++ rotTrace 2) ∧
      fsGet w'.io.fs (FPath.backup 1) = some [7, 7] ∧
      fsGet w'.io.fs FPath.active = some [] ∧
      w'.buffer = some ⟨[], 4, false⟩ ∧ w'.pos = 0 :=
  (claim_C1 (mkRotating [] 4 2 2 []) [7, 7] ⟨[], 4, false⟩ [] rfl rfl rfl
    (by decide) rfl).1 (by decide)

/-- C8 (amended): a failed flush or rotation is never retried
immediately.  Flush recovers on the next cycle: the flush-timer step
always clears the dirty flag, so the next accepted write that leaves
bytes buffered queues a fresh wake signal and re-arms the flush timer.
Rotation does not: the one-shot rotate timer, disarmed by its own fire,
is re-armed exactly when the rotation succeeds — after a rotation
attempt fails at any step, the rotate timer stays disarmed and no later
time-based rotation attempt occurs. -/
theorem claim_C8_amended :
    (∀ (w : TimedRotatingFileWriter) (e : Option WErr)
      (w' : TimedRotatingFileWriter), rotateFired w = TROut.ret e w' →
        (w'.rotateArmed = true ↔ e = none)) ∧
    (∀ {α : Type} (inst : DecidableEq α) (w : BufferedFileWriter α) (h : α)
      (n : Nat) (e : Option WErr) (w' : BufferedFileWriter α),
      w.writer = some h → scheduleFlushStep w = WOut.ret n e w' →
        w'.updated = false ∧ w'.writer = some h) ∧
    (∀ {α : Type} (inst : DecidableEq α) (w : BufferedFileWriter α)
      (b b' : BufState) (p : List Byte) (n : Nat) (e : Option WErr)
      (w' : BufferedFileWriter α), w.buffer = some b → w.updated = false →
      BufferedFileWriter.Write w p = WOut.ret n e w' → 0 < n →
      w'.buffer = some b' → b'.pending ≠ [] →
      w'.updateChan = w.updateChan + 1 ∧ w'.updated = true) := by
  refine ⟨?_, ?_, ?_⟩
  · intro w e w' hr
    unfold rotateFired TimedRotatingFileWriter.rotate at hr
    cases hww : w.writer with
    | none =>
        simp only [hww] at hr
        injection hr with he hst
        subst he
        subst hst
        simp
    | some h =>
        cases hbb : w.buffer with
        | none =>
            simp only [hww, hbb] at hr
            exact TROut.noConfusion hr
        | some b =>
            simp only [hww, hbb] at hr
            by_cases hf : (bufFlush b w.io h).2.2 = true
            · rw [if_pos hf] at hr
              injection hr with he hst
              subst he
              subst hst
              simp
            · rw [if_neg hf] at hr
              by_cases hc : (wNext (bufFlush b w.io h).2.1.world).1 = IoRes.ok
              · rw [if_pos hc] at hr
                by_cases ho :
                  (wNext (wNext (bufFlush b w.io h).2.1.world).2).1 = IoRes.ok
                · rw [if_pos ho] at hr
                  injection hr with he hst
                  subst he
                  subst hst
                  simp
                · rw [if_neg ho] at hr
                  injection hr with he hst
                  subst he
                  subst hst
                  simp
              · rw [if_neg hc] at hr
                injection hr with he hst
                subst he
                subst hst
                simp
  · intro α inst w h n e w' hw hstep
    unfold scheduleFlushStep at hstep
    simp only [hw] at hstep
    cases hbb : w.buffer with
    | none =>
        simp only [hbb] at hstep
        exact WOut.noConfusion hstep
    | some b =>
        simp only [hbb] at hstep
        injection hstep with hn he hst
        subst hst
        exact ⟨rfl, rfl⟩
  · intro α inst w b b' p n e w' hb hup hW hn hb' hne
    unfold BufferedFileWriter.Write at hW
    cases hww : w.writer with
    | none =>
        simp only [hb, hww] at hW
        exact WOut.noConfusion hW
    | some h =>
        simp only [hb, hww] at hW
        injection hW with hn' he' hst'
        subst hst'
        rw [← hn'] at hn
        have hb'' : (bwWrite b w.io h p).2.2.1 = b' := by
          have := hb'
          simp only at this
          injection this
        have hfire : (!w.updated && decide (0 < (bwWrite b w.io h p).1) &&
            !(bwWrite b w.io h p).2.2.1.pending.isEmpty) = true := by
          rw [hup, hb'']
          simp [hn, hne]
        constructor
        · show (if (!w.updated && decide (0 < (bwWrite b w.io h p).1) &&
            !(bwWrite b w.io h p).2.2.1.pending.isEmpty) = true
            then w.updateChan + 1 else w.updateChan) = w.updateChan + 1
          rw [if_pos hfire]
        · show (w.updated || (!w.updated &&
            decide (0 < (bwWrite b w.io h p).1) &&
            !(bwWrite b w.io h p).2.2.1.pending.isEmpty)) = true
          rw [hfire]
          simp

/-- Counterexample to C8 as stated: a timed rotator with a dirty buffer
whose rotate-timer fire hits a failing flush reports the error and
leaves the rotate timer disarmed — it is not re-armed for the following
boundary, contradicting the claim that a later rotation attempt occurs. -/
theorem claim_C8_counterexample :
    ((rotateFired { mkTimed "log" "-1" 8 1 [] [IoRes.fail] with
      buffer := some ⟨[7], 8, false⟩ }).errOf = some WErr.ioE) ∧
    (({ mkTimed "log" "-1" 8 1 [] [IoRes.fail] with
      buffer := some ⟨[7], 8, false⟩ } :
        TimedRotatingFileWriter).rotateArmed = true) ∧
    (((rotateFired { mkTimed "log" "-1" 8 1 [] [IoRes.fail] with
      buffer := some ⟨[7], 8, false⟩ }).stOr
        (mkTimed "log" "-1" 8 1 [] [])).rotateArmed = false) := by
  decide

/-- Witness for the amended C8: a successful concrete rotation re-arms
the rotate timer. -/
theorem claim_C8_witness :
    ((rotateFired { mkTimed "log" "-1" 8 1 [] [] with
      clockName := "-2" }).stOr
        (mkTimed "log" "-1" 8 1 [] [])).rotateArmed = true ↔
    (rotateFired { mkTimed "log" "-1" 8 1 [] [] with
      clockName := "-2" }).errOf = none := by
  have hr : rotateFired ({ mkTimed "log" "-1" 8 1 [] [] with
      clockName := "-2" }) = TROut.ret
        ((rotateFired { mkTimed "log" "-1" 8 1 [] [] with
          clockName := "-2" }).errOf)
        ((rotateFired { mkTimed "log" "-1" 8 1 [] [] with
          clockName := "-2" }).stOr (mkTimed "log" "-1" 8 1 [] [])) := by
    decide
  exact claim_C8_amended.1 _ _ _ hr

theorem bfwWrite_fit {α : Type} [DecidableEq α] (w : BufferedFileWriter α)
    (b : BufState) (h : α) (p : List Byte) (hw : w.writer = some h)
    (hb : w.buffer = some b) (he : b.errFlag = false)
    (hfit : p.length ≤ b.cap - b.pending.length) :
    ∃ w2, BufferedFileWriter.Write w p = WOut.ret p.length none w2 ∧
      w2.writer = some h ∧
      w2.buffer = some ⟨b.pending ++ p, b.cap, false⟩ ∧ w2.io = w.io := by
  have hbw := bwWrite_eq_fit b w.io h p he hfit
  cases hWeq : BufferedFileWriter.Write w p with
  | panicked =>
      exfalso
      have h2 := hWeq
      unfold BufferedFileWriter.Write at h2
      simp only [hb, hw] at h2
      exact WOut.noConfusion h2
  | ret n e w2 =>
      have h2 := hWeq
      unfold BufferedFileWriter.Write at h2
      simp only [hb, hw] at h2
      rw [hbw] at h2
      simp only [Bool.false_eq_true, if_false] at h2
      injection h2 with hn' he' hst'
      refine ⟨w2, ?_, ?_, ?_, ?_⟩
      · rw [← hn', ← he']
      · rw [← hst']
      · rw [← hst']
      · rw [← hst']

theorem bfwWrite_overflow {α : Type} [DecidableEq α]
    (w : BufferedFileWriter α) (b : BufState) (h : α) (q d : List Byte)
    (hw : w.writer = some h) (hb : w.buffer = some b)
    (hfull : b.pending.length = b.cap) (he : b.errFlag = false)
    (hc : 0 < b.cap) (hq1 : 0 < q.length) (hqc : q.length ≤ b.cap)
    (hworld : w.io.world = []) (hd : fsGet w.io.fs h = some d) :
    ∃ w2, BufferedFileWriter.Write w q = WOut.ret q.length none w2 ∧
      fsGet w2.io.fs h = some (d ++ b.pending) ∧
      w2.buffer = some ⟨q, b.cap, false⟩ := by
  have h0 : b.cap - b.pending.length = 0 := by omega
  have hnfit : ¬ q.length ≤ b.cap - b.pending.length := by omega
  have hp0 : ¬ b.pending.length = 0 := by omega
  have hbf := bufFlush_nilWorld
    ⟨b.pending ++ q.take (b.cap - b.pending.length), b.cap, false⟩ w.io h
    rfl hworld hd
  have hf4 : (bufFlush ⟨b.pending ++ q.take (b.cap - b.pending.length),
      b.cap, false⟩ w.io h).2.2 = false := by rw [hbf]
  have hfit2 : (q.drop (b.cap - b.pending.length)).length ≤ b.cap := by
    simp only [List.length_drop]
    omega
  have hbw := bwWrite_eq_spill_fit b w.io h q he hnfit hp0 hf4 hfit2
  cases hWeq : BufferedFileWriter.Write w q with
  | panicked =>
      exfalso
      have h2 := hWeq
      unfold BufferedFileWriter.Write at h2
      simp only [hb, hw] at h2
      exact WOut.noConfusion h2
  | ret n e w2 =>
      have h2 := hWeq
      unfold BufferedFileWriter.Write at h2
      simp only [hb, hw] at h2
      rw [hbw] at h2
      simp only [Bool.false_eq_true, if_false] at h2
      injection h2 with hn' he' hst'
      have hn2 : n = q.length := by
        rw [← hn']
        simp only [List.length_drop]
        omega
      subst hn2
      refine ⟨w2, ?_, ?_, ?_⟩
      · rw [← he']
      · rw [← hst']
        show fsGet (bufFlush ⟨b.pending ++
          q.take (b.cap - b.pending.length), b.cap, false⟩ w.io h).2.1.fs h =
          some (d ++ b.pending)
        rw [hbf]
        show fsGet (fsSet w.io.fs h
          (d ++ (b.pending ++ q.take (b.cap - b.pending.length)))) h = _
        rw [fsGet_fsSet_self, h0]
        simp
      · rw [← hst']
        show some (⟨q.drop (b.cap - b.pending.length), b.cap,
          false⟩ : BufState) = some ⟨q, b.cap, false⟩
        rw [h0]
        simp

theorem runWrites_fill {α : Type} [DecidableEq α] (h : α) :
    ∀ (ps : List (List Byte)) (w : BufferedFileWriter α) (b : BufState),
      w.writer = some h → w.buffer = some b → b.errFlag = false →
      b.pending.length + (ps.map List.length).sum ≤ b.cap →
      ∃ w', runWrites w ps = some w' ∧ w'.writer = some h ∧
        w'.buffer = some ⟨b.pending ++ ps.flatten, b.cap, false⟩ ∧
        w'.io = w.io
  | [], w, b, hw, hb, he, hsum => by
      refine ⟨w, by simp [runWrites], hw, ?_, rfl⟩
      obtain ⟨pend, cap, err⟩ := b
      simp only at he
      subst he
      simpa using hb
  | p :: t, w, b, hw, hb, he, hsum => by
      simp only [List.map_cons, List.sum_cons] at hsum
      have hfit : p.length ≤ b.cap - b.pending.length := by omega
      obtain ⟨w2, hWeq, hw2, hb2, hio2⟩ :=
        bfwWrite_fit w b h p hw hb he hfit
      have hstep : runWrites w (p :: t) = runWrites w2 t := by
        show (match BufferedFileWriter.Write w p with
          | WOut.ret _ _ w' => runWrites w' t
          | WOut.panicked => none) = _
        rw [hWeq]
      rw [hstep]
      obtain ⟨w', hrun, hw', hb', hio'⟩ :=
        runWrites_fill h t w2 ⟨b.pending ++ p, b.cap, false⟩ hw2 hb2 rfl
          (by simp only [List.length_append]; omega)
      refine ⟨w', hrun, hw', ?_, by rw [hio', hio2]⟩
      rw [hb']
      simp

/-- C6 (amended): writes whose total length exactly fills the buffer
capacity make nothing visible in the file — all `capacity` bytes remain
buffered (Go's `bufio` only flushes when a write does not fit the free
space).  Exactly `capacity` bytes become visible immediately when a
subsequent write overflows the now-full buffer: that write flushes the
`capacity` buffered bytes and leaves its own record buffered, visible
only at the next flush. -/
theorem claim_C6_amended (path : String) (cap : Nat) (f0 : List Byte)
    (ps : List (List Byte)) (q : List Byte) (hc : 0 < cap)
    (hsum : (ps.map List.length).sum = cap) (hq1 : 0 < q.length)
    (hqc : q.length ≤ cap) :
    ∃ w' w'', runWrites (mkBuffered path cap f0 []) ps = some w' ∧
      fsGet w'.io.fs path = some f0 ∧
      w'.buffer = some ⟨ps.flatten, cap, false⟩ ∧
      ps.flatten.length = cap ∧
      BufferedFileWriter.Write w' q = WOut.ret q.length none w'' ∧
      fsGet w''.io.fs path = some (f0 ++ ps.flatten) ∧
      w''.buffer = some ⟨q, cap, false⟩ := by
  obtain ⟨w', hrun, hw', hb', hio'⟩ :=
    runWrites_fill path ps (mkBuffered path cap f0 []) ⟨[], cap, false⟩
      rfl rfl rfl (by simpa using le_of_eq hsum)
  simp only [List.nil_append] at hb'
  have hflat : ps.flatten.length = cap := by
    rw [← hsum]
    simp [List.length_flatten]
  have hfs' : fsGet w'.io.fs path = some f0 := by
    rw [hio']
    simp [mkBuffered, fsGet]
  have hworld' : w'.io.world = [] := by
    rw [hio']
    rfl
  obtain ⟨w'', hWq, hfs'', hb''⟩ :=
    bfwWrite_overflow w' ⟨ps.flatten, cap, false⟩ path q f0 hw' hb'
      hflat rfl hc hq1 hqc hworld' hfs'
  exact ⟨w', w'', hrun, hfs', hb', hflat, hWq, hfs'', hb''⟩

/-- Counterexample to C6 as stated: with capacity 4, two writes totalling
exactly 4 bytes leave the file at 0 bytes — not 4; the bytes sit in the
buffer until a later overflow or timer flush. -/
theorem claim_C6_counterexample :
    ((runWrites (mkBuffered "log" 4 [] []) [[1, 2], [3, 4]]).map
      (fun w => flLen w.io.fs "log") = some 0) ∧
    ¬ ((runWrites (mkBuffered "log" 4 [] []) [[1, 2], [3, 4]]).map
      (fun w => flLen w.io.fs "log") = some 4) := by
  decide

/-- Witness for the amended C6 with capacity 4, records `[1,2]` and
`[3,4]`, and overflow record `[5]`. -/
theorem claim_C6_witness :
    ∃ w' w'', runWrites (mkBuffered "log" 4 [] []) [[1, 2], [3, 4]] =
        some w' ∧
      fsGet w'.io.fs "log" = some [] ∧
      w'.buffer = some ⟨([[1, 2], [3, 4]] : List (List Byte)).flatten, 4,
        false⟩ ∧
      ([[1, 2], [3, 4]] : List (List Byte)).flatten.length = 4 ∧
      BufferedFileWriter.Write w' [5] = WOut.ret ([5] : List Byte).length
        none w'' ∧
      fsGet w''.io.fs "log" =
        some ([] ++ ([[1, 2], [3, 4]] : List (List Byte)).flatten) ∧
      w''.buffer = some ⟨[5], 4, false⟩ :=
  claim_C6_amended "log" 4 [] [[1, 2], [3, 4]] [5] (by decide) (by decide)
    (by decide) (by decide)

theorem purgeLoop_attempts (name : String) :
    ∀ (l : List String) (fs : Fs String) (wld : World),
      (purgeLoop name fs wld l).2.2.map Prod.fst =
        l.filter (fun p => decide (p ≠ name))
  | [], _, _ => rfl
  | p :: t, fs, wld => by
      by_cases hp : p = name
      · simp only [purgeLoop, if_pos hp]
        rw [purgeLoop_attempts name t fs wld]
        simp [hp]
      · simp only [purgeLoop, if_neg hp]
        by_cases hc : (wNext wld).1 = IoRes.ok
        · rw [if_pos hc]
          simp only [List.map_cons]
          rw [purgeLoop_attempts name t (fsDel fs p) (wNext wld).2]
          simp [hp]
        · rw [if_neg hc]
          simp only [List.map_cons]
          rw [purgeLoop_attempts name t fs (wNext wld).2]
          simp [hp]

theorem purgeLoop_nilWorld (name : String) :
    ∀ (l : List String) (fs : Fs String),
      (purgeLoop name fs [] l).1 =
        (l.filter (fun p => decide (p ≠ name))).foldl fsDel fs ∧
      (purgeLoop name fs [] l).2.2 =
        (l.filter (fun p => decide (p ≠ name))).map (fun p => (p, true))
  | [], _ => ⟨rfl, rfl⟩
  | p :: t, fs => by
      by_cases hp : p = name
      · simp only [purgeLoop, if_pos hp]
        have := purgeLoop_nilWorld name t fs
        simpa [hp] using this
      · simp only [purgeLoop, if_neg hp, wNext]
        have := purgeLoop_nilWorld name t (fsDel fs p)
        refine ⟨?_, ?_⟩
        · rw [this.1]
          simp [hp]
        · rw [this.2]
          simp [hp]

theorem fsDel_keys [DecidableEq α] :
    ∀ (fs : Fs α) (p : α), (fsDel fs p).map Prod.fst =
      (fs.map Prod.fst).filter (fun k => decide (k ≠ p))
  | [], _ => rfl
  | (q, e) :: t, p => by
      by_cases hq : q = p
      · simp only [fsDel, if_pos hq, List.map_cons]
        rw [fsDel_keys t p]
        simp [hq]
      · simp only [fsDel, if_neg hq, List.map_cons]
        rw [fsDel_keys t p]
        simp [hq]

theorem foldl_fsDel_keys :
    ∀ (l : List String) (fs : Fs String),
      (l.foldl fsDel fs).map Prod.fst =
        (fs.map Prod.fst).filter (fun k => decide (k ∉ l))
  | [], fs => by simp
  | p :: t, fs => by
      show ((t.foldl fsDel (fsDel fs p)).map Prod.fst) = _
      rw [foldl_fsDel_keys t (fsDel fs p), fsDel_keys fs p,
        List.filter_filter]
      refine List.filter_congr ?_
      intro x _
      by_cases hxp : x = p
      · simp [hxp]
      · by_cases hxt : x ∈ t
        · simp [hxp, hxt]
        · simp [hxp, hxt]

theorem filter_no_mem_append {α : Type} [DecidableEq α] (t d : List α)
    (hdisj : List.Disjoint t d) :
    (t ++ d).filter (fun x => decide (x ∉ t)) = d := by
  rw [List.filter_append]
  have h1 : t.filter (fun x => decide (x ∉ t)) = [] := by
    rw [List.filter_eq_nil_iff]
    intro a ha
    simp [ha]
  have h2 : d.filter (fun x => decide (x ∉ t)) = d := by
    rw [List.filter_eq_self]
    intro a ha
    have : a ∉ t := fun hmem => hdisj hmem ha
    simp [this]
  rw [h1, h2, List.nil_append]

theorem filter_not_mem_take {α : Type} [DecidableEq α] (l : List α)
    (k : Nat) (hnd : l.Nodup) :
    l.filter (fun x => decide (x ∉ l.take k)) = l.drop k := by
  have hdisj : List.Disjoint (l.take k) (l.drop k) :=
    List.disjoint_take_drop hnd (le_refl k)
  calc l.filter (fun x => decide (x ∉ l.take k))
      = (l.take k ++ l.drop k).filter (fun x => decide (x ∉ l.take k)) := by
        rw [List.take_append_drop]
    _ = l.drop k := filter_no_mem_append _ _ hdisj

theorem strListLe_total : ∀ (a b : List Char),
    strListLe a b = true ∨ strListLe b a = true
  | [], _ => Or.inl rfl
  | _ :: _, [] => Or.inr rfl
  | a :: as, b :: bs => by
      by_cases h1 : a.val.toNat < b.val.toNat
      · left
        simp [strListLe, h1]
      · by_cases h2 : b.val.toNat < a.val.toNat
        · right
          simp [strListLe, h2]
        · cases strListLe_total as bs with
          | inl h => left; simp [strListLe, h1, h2, h]
          | inr h => right; simp [strListLe, h1, h2, h]

theorem strListLe_trans : ∀ (a b c : List Char),
    strListLe a b = true → strListLe b c = true → strListLe a c = true
  | [], _, _, _, _ => rfl
  | _ :: _, [], _, h1, _ => by simp [strListLe] at h1
  | _ :: _, _ :: _, [], _, h2 => by simp [strListLe] at h2
  | a :: as, b :: bs, c :: cs, h1, h2 => by
      simp only [strListLe] at h1 h2 ⊢
      by_cases hab : a.val.toNat < b.val.toNat
      · by_cases hbc : b.val.toNat < c.val.toNat
        · rw [if_pos (Nat.lt_trans hab hbc)]
        · rw [if_neg hbc] at h2
          by_cases hcb : c.val.toNat < b.val.toNat
          · rw [if_pos hcb] at h2
            exact absurd h2 (by simp)
          · have hbceq : b.val.toNat = c.val.toNat :=
              Nat.le_antisymm (Nat.le_of_not_lt hcb) (Nat.le_of_not_lt hbc)
            rw [if_pos (hbceq ▸ hab)]
      · rw [if_neg hab] at h1
        by_cases hba : b.val.toNat < a.val.toNat
        · rw [if_pos hba] at h1
          exact absurd h1 (by simp)
        · rw [if_neg hba] at h1
          have habeq : a.val.toNat = b.val.toNat :=
            Nat.le_antisymm (Nat.le_of_not_lt hba) (Nat.le_of_not_lt hab)
          by_cases hbc : b.val.toNat < c.val.toNat
          · rw [if_pos (habeq ▸ hbc)]
          · rw [if_neg hbc] at h2
            by_cases hcb : c.val.toNat < b.val.toNat
            · rw [if_pos hcb] at h2
              exact absurd h2 (by simp)
            · rw [if_neg hcb] at h2
              have hbceq : b.val.toNat = c.val.toNat :=
                Nat.le_antisymm (Nat.le_of_not_lt hcb) (Nat.le_of_not_lt hbc)
              have haceq : a.val.toNat = c.val.toNat := habeq.trans hbceq
              rw [if_neg (by rw [haceq]; exact Nat.lt_irrefl _),
                if_neg (by rw [haceq]; exact Nat.lt_irrefl _)]
              exact strListLe_trans as bs cs h1 h2

instance : IsTotal String fun a b => strLe a b = true :=
  ⟨fun a b => strListLe_total a.data b.data⟩

instance : IsTrans String fun a b => strLe a b = true :=
  ⟨fun a b c => strListLe_trans a.data b.data c.data⟩

theorem purgePaths_def (v : TimedRotatingFileWriter) :
    purgePaths v =
      (v.io.fs.map Prod.fst).filter (fun s => strHasPre v.pfx s) := rfl

/-- C7: a purge pass of an open `TimedRotatingFileWriter` lists the
files matching the prefix; when at most `backupCount + 1` match it does
nothing, and otherwise, with `k = count - backupCount - 1`, it attempts
to delete exactly the `k` lexicographically smallest matching names
except the currently open file, regardless of individual deletion
failures (a failure is recorded and the pass continues); the currently
open file is never deleted.  When every deletion succeeds and the open
file is not among the `k` smallest, exactly the current file and the
`backupCount` most recent names remain matching the prefix. -/
theorem claim_C7 (w : TimedRotatingFileWriter) (name : String)
    (hw : w.writer = some name) :
    (List.Perm (purgeSorted w) (purgePaths w) ∧
      List.Sorted (fun a b => strLe a b = true) (purgeSorted w)) ∧
    (¬ w.backupCount + 1 < (purgePaths w).length → w.purge = (w, [])) ∧
    (w.backupCount + 1 < (purgePaths w).length →
      (w.purge.2.map Prod.fst =
        ((purgeSorted w).take ((purgePaths w).length - w.backupCount - 1)
          ).filter (fun p => decide (p ≠ name)) ∧
      name ∉ w.purge.2.map Prod.fst)) ∧
    (w.backupCount + 1 < (purgePaths w).length → w.io.world = [] →
      (w.io.fs.map Prod.fst).Nodup →
      name ∉ (purgeSorted w).take
        ((purgePaths w).length - w.backupCount - 1) →
      (w.purge.2 =
        ((purgeSorted w).take ((purgePaths w).length - w.backupCount - 1)
          ).map (fun p => (p, true)) ∧
      List.Perm (purgePaths w.purge.1)
        ((purgeSorted w).drop
          ((purgePaths w).length - w.backupCount - 1)) ∧
      ((purgeSorted w).drop
        ((purgePaths w).length - w.backupCount - 1)).length =
        w.backupCount + 1)) := by
  have hperm : List.Perm (purgeSorted w) (purgePaths w) :=
    List.perm_insertionSort _ _
  refine ⟨⟨hperm, List.sorted_insertionSort _ _⟩, ?_, ?_, ?_⟩
  · intro hk
    unfold TimedRotatingFileWriter.purge
    rw [if_neg hk]
  · intro hk
    have hpu : w.purge.2 = (purgeLoop name w.io.fs w.io.world
        ((purgeSorted w).take
          ((purgePaths w).length - w.backupCount - 1))).2.2 := by
      unfold TimedRotatingFileWriter.purge
      rw [if_pos hk, hw]
    constructor
    · rw [hpu]
      exact purgeLoop_attempts name _ w.io.fs w.io.world
    · rw [hpu, purgeLoop_attempts name _ w.io.fs w.io.world]
      intro hmem
      rw [List.mem_filter] at hmem
      simp at hmem
  · intro hk hworld hnd hnmem
    have hff : ((purgeSorted w).take
        ((purgePaths w).length - w.backupCount - 1)).filter
        (fun p => decide (p ≠ name)) =
        (purgeSorted w).take
          ((purgePaths w).length - w.backupCount - 1) := by
      rw [List.filter_eq_self]
      intro a ha
      have : a ≠ name := fun h => hnmem (h ▸ ha)
      simp [this]
    have hloop := purgeLoop_nilWorld name
      ((purgeSorted w).take ((purgePaths w).length - w.backupCount - 1))
      w.io.fs
    rw [hff] at hloop
    have hpu1 : w.purge.1.io.fs = (purgeLoop name w.io.fs w.io.world
        ((purgeSorted w).take
          ((purgePaths w).length - w.backupCount - 1))).1 := by
      unfold TimedRotatingFileWriter.purge
      rw [if_pos hk, hw]
    have hpu2 : w.purge.2 = (purgeLoop name w.io.fs w.io.world
        ((purgeSorted w).take
          ((purgePaths w).length - w.backupCount - 1))).2.2 := by
      unfold TimedRotatingFileWriter.purge
      rw [if_pos hk, hw]
    have hndp : (purgePaths w).Nodup := List.Nodup.filter _ hnd
    have hnds : (purgeSorted w).Nodup := hperm.nodup_iff.mpr hndp
    refine ⟨?_, ?_, ?_⟩
    · rw [hpu2, hworld, hloop.2]
    · have hpfx : w.purge.1.pfx = w.pfx := by
        unfold TimedRotatingFileWriter.purge
        rw [if_pos hk]
      rw [purgePaths_def w.purge.1, hpfx, hpu1, hworld, hloop.1,
        foldl_fsDel_keys, List.filter_comm, ← purgePaths_def w]
      have hfin : (purgeSorted w).filter
          (fun x => decide (x ∉ (purgeSorted w).take
            ((purgePaths w).length - w.backupCount - 1))) =
          (purgeSorted w).drop
            ((purgePaths w).length - w.backupCount - 1) :=
        filter_not_mem_take (purgeSorted w) _ hnds
      rw [← hfin]
      exact List.Perm.filter _ hperm.symm
    · rw [List.length_drop, hperm.length_eq]
      omega

/-- Witness for C7 at a concrete rotator with four dated files, one
unrelated file and retention 1: the two oldest dated files are deleted,
the open file and the newest backup remain. -/
theorem claim_C7_witness :
    (List.Perm (purgeSorted (mkTimed "log" "-4" 8 1
        [("log-1", [1]), ("log-2", [2]), ("log-3", [3]), ("other", [9])]
        []))
      (purgePaths (mkTimed "log" "-4" 8 1
        [("log-1", [1]), ("log-2", [2]), ("log-3", [3]), ("other", [9])]
        [])) ∧
      List.Sorted (fun a b => strLe a b = true)
        (purgeSorted (mkTimed "log" "-4" 8 1
          [("log-1", [1]), ("log-2", [2]), ("log-3", [3]), ("other", [9])]
          []))) ∧
    (¬ (mkTimed "log" "-4" 8 1
        [("log-1", [1]), ("log-2", [2]), ("log-3", [3]), ("other", [9])]
        []).backupCount + 1 <
        (purgePaths (mkTimed "log" "-4" 8 1
          [("log-1", [1]), ("log-2", [2]), ("log-3", [3]), ("other", [9])]
          [])).length →
      (mkTimed "log" "-4" 8 1
        [("log-1", [1]), ("log-2", [2]), ("log-3", [3]), ("other", [9])]
        []).purge =
        (mkTimed "log" "-4" 8 1
          [("log-1", [1]), ("log-2", [2]), ("log-3", [3]), ("other", [9])]
          [], [])) ∧
    ((mkTimed "log" "-4" 8 1
        [("log-1", [1]), ("log-2", [2]), ("log-3", [3]), ("other", [9])]
        []).backupCount + 1 <
        (purgePaths (mkTimed "log" "-4" 8 1
          [("log-1", [1]), ("log-2", [2]), ("log-3", [3]), ("other", [9])]
          [])).length →
      ((mkTimed "log" "-4" 8 1
        [("log-1", [1]), ("log-2", [2]), ("log-3", [3]), ("other", [9])]
        []).purge.2.map Prod.fst =
        ((purgeSorted (mkTimed "log" "-4" 8 1
          [("log-1", [1]), ("log-2", [2]), ("log-3", [3]), ("other", [9])]
          [])).take
          ((purgePaths (mkTimed "log" "-4" 8 1
            [("log-1", [1]), ("log-2", [2]), ("log-3", [3]),
              ("other", [9])] [])).length -
            (mkTimed "log" "-4" 8 1
              [("log-1", [1]), ("log-2", [2]), ("log-3", [3]),
                ("other", [9])] []).backupCount - 1)).filter
          (fun p => decide (p ≠ "log-4")) ∧
      "log-4" ∉ (mkTimed "log" "-4" 8 1
        [("log-1", [1]), ("log-2", [2]), ("log-3", [3]), ("other", [9])]
        []).purge.2.map Prod.fst)) :=
  have h := claim_C7 (mkTimed "log" "-4" 8 1
    [("log-1", [1]), ("log-2", [2]), ("log-3", [3]), ("other", [9])] [])
    "log-4" rfl
  ⟨h.1, h.2.1, h.2.2.1⟩

end Golog
